import Mathlib

/-!
Verification development for the `spark-package` command line tool
(`src/python/spark_package/spark_package.py`).

The Python source is shallowly embedded: strings are Lean `String`s but all
string primitives used by the tool (`str.strip`, `str.split`, `str.find`,
slicing, `in`, `str.startswith`, `fnmatch` with a `*.jar` pattern) are
re-implemented below over `List Char` with Python's semantics, because the
built-in Lean counterparts are not kernel-reducible.  XML elements
(`xml.etree.ElementTree.Element`) become the inductive `XElem`; mutation of a
tree becomes functional update.  Fatal exits (`show_error_and_exit`), failed
`assert`s and uncaught Python exceptions (`AttributeError`, `ValueError`)
become an `Except PyError` result.
-/

/-! ### Python string primitives -/

/-- Characters treated as whitespace by Python's `str.strip()` (ASCII range). -/
def pyIsSpace (c : Char) : Bool :=
  c = ' ' ∨ c = '\t' ∨ c = '\n' ∨ c = '\r' ∨ c = '\x0b' ∨ c = '\x0c'

/-- Python `str.strip()`: drop whitespace from both ends. -/
def pyStrip (s : String) : String :=
  ⟨((s.data.dropWhile pyIsSpace).reverse.dropWhile pyIsSpace).reverse⟩

/-- Python `str.startswith(p)`. -/
def pyStartswith (s p : String) : Bool :=
  p.data.isPrefixOf s.data

/-- Python `str.endswith(p)`; also the meaning of `fnmatch.filter(_, '*.jar')`
    membership for the pattern suffix. -/
def pyEndswith (s p : String) : Bool :=
  p.data.isSuffixOf s.data

/-- Worker for `pySplit`: scan the character list left to right, splitting at
    each non-overlapping occurrence of the (non-empty, in all uses) separator,
    accumulating the current field in reverse.  Every step consumes at least
    one character, so structural recursion on a fuel initialised to the input
    length never reaches the (arbitrary) out-of-fuel fallback. -/
def pySplitGo (sep : List Char) : Nat → List Char → List Char → List (List Char)
  | _, [], acc => [acc.reverse]
  | 0, l, acc => [acc.reverse ++ l]
  | fuel + 1, c :: rest, acc =>
    if sep.isPrefixOf (c :: rest) then
      acc.reverse :: pySplitGo sep fuel (rest.drop (sep.length - 1)) []
    else
      pySplitGo sep fuel rest (c :: acc)

/-- Python `s.split(sep)` for a non-empty separator. -/
def pySplit (s sep : String) : List String :=
  (pySplitGo sep.data s.data.length s.data []).map (fun l => ⟨l⟩)

/-- First index at which `pat` occurs in the character list, if any. -/
def findSub (pat : List Char) : List Char → Option Nat
  | [] => if pat.isPrefixOf [] then some 0 else none
  | c :: cs =>
    if pat.isPrefixOf (c :: cs) then some 0
    else (findSub pat cs).map (· + 1)

/-- Python `s.find(pat)`, with `-1` (not found) modelled as `none`. -/
def pyFind (s pat : String) : Option Nat :=
  findSub pat.data s.data

/-- Python `pat in s` (substring containment). -/
def pyContains (s pat : String) : Bool :=
  (pyFind s pat).isSome

/-- Python slice `s[:n]`. -/
def pyTake (s : String) (n : Nat) : String :=
  ⟨s.data.take n⟩

/-- Python `list.insert(i, a)`: insert before position `i`, clamping to an
    append when `i` exceeds the current length. -/
def pyInsert {α : Type} (l : List α) (i : Nat) (a : α) : List α :=
  l.take i ++ a :: l.drop i

/-! ### XML data model

An `xml.etree.ElementTree.Element` as used by the tool: a qualified tag, the
attribute dictionary, the text content (Python `None` as `none`) and the list
of direct children. -/

structure XElem where
  tag : String
  attrs : List (String × String)
  text : Option String
  children : List XElem

/-- Element.find of `xml.etree`: the first direct child carrying the tag. -/
def findChild (e : XElem) (tag : String) : Option XElem :=
  e.children.find? (fun c => c.tag == tag)

/-- Failure modes of the Python process: `show_error_and_exit`, a failed
    `assert`, an uncaught `AttributeError` (`None` dereference), an uncaught
    `ValueError` (tuple unpacking). -/
inductive PyError where
  | fatal (msg : String)
  | assertFailed (msg : String)
  | attributeError
  | valueError
  deriving DecidableEq

/-! ### POM helpers (`pom_*` functions of the source) -/

/-- Lookup in the `values` dictionary (`values[tag]`); at every call site of
    the source the key is present, so the `""` default is never used. -/
def dictGet (values : List (String × String)) (k : String) : String :=
  ((values.find? (fun kv => kv.1 == k)).map Prod.snd).getD ""

/-- Inner loop of `pom_check_if_child_exists`: for each comparison tag, look
    up `child.find(prefix + tag)` and count the tags whose text equals the
    dictionary value.  A missing key element is dereferenced (`key.text`) by
    the source, which raises `AttributeError`: modelled as `.error ()`. -/
def count_tag_matches (child : XElem) (pfx : String) (values : List (String × String)) :
    List String → Except Unit Nat
  | [] => .ok 0
  | t :: ts =>
    match findChild child (pfx ++ t) with
    | none => .error ()
    | some key =>
      match count_tag_matches child pfx values ts with
      | .error e => .error e
      | .ok n => .ok (if key.text = some (dictGet values t) then n + 1 else n)

/-- Loop of `pom_check_if_child_exists` over the collection's children:
    returns `true` at the first child all of whose comparison tags match. -/
def pom_children_match (pfx : String) (values : List (String × String))
    (tags : List String) : List XElem → Except Unit Bool
  | [] => .ok false
  | c :: cs =>
    match count_tag_matches c pfx values tags with
    | .error e => .error e
    | .ok n => if n = tags.length then .ok true else pom_children_match pfx values tags cs

/-- Source `pom_check_if_child_exists(parent, prefix, values, comparison_tags)`. -/
def pom_check_if_child_exists (parent : XElem) (pfx : String)
    (values : List (String × String)) (comparison_tags : List String) : Except Unit Bool :=
  pom_children_match pfx values comparison_tags parent.children

/-- Replace the text of the first child carrying `tag`; `none` when no child
    carries it (the `root.find(tag) is None` case). -/
def set_text_first (tag txt : String) : List XElem → Option (List XElem)
  | [] => none
  | c :: cs =>
    if c.tag == tag then some (⟨c.tag, c.attrs, some txt, c.children⟩ :: cs)
    else (set_text_first tag txt cs).map (fun cs2 => c :: cs2)

/-- Source `pom_add_or_modify_tag(root, tag, text, insert_index)`: overwrite
    the text of the first child with the tag, else create the child and
    `list.insert` it at the index (append when the index is `None`). -/
def pom_add_or_modify_tag (root : XElem) (tag txt : String) (insertIndex : Option Nat) : XElem :=
  match set_text_first tag txt root.children with
  | some cs => ⟨root.tag, root.attrs, root.text, cs⟩
  | none =>
    let child : XElem := ⟨tag, [], some txt, []⟩
    match insertIndex with
    | none => ⟨root.tag, root.attrs, root.text, root.children ++ [child]⟩
    | some i => ⟨root.tag, root.attrs, root.text, pyInsert root.children i child⟩

/-- Position of `x` in `l` (`list.index`; never called on a missing key by the
    source). -/
def list_index (l : List String) (x : String) : Nat :=
  l.findIdx (fun y => y == x)

/-- Stable insertion used to model Python's stable `sorted(values.items(),
    key=lambda i: key_order.index(i[0]))`; the keys of `values` are pairwise
    distinct at both call sites, so any correct sort yields the same list. -/
def sorted_insert (keyOrder : List String) (p : String × String) :
    List (String × String) → List (String × String)
  | [] => [p]
  | q :: qs =>
    if list_index keyOrder p.1 ≤ list_index keyOrder q.1 then p :: q :: qs
    else q :: sorted_insert keyOrder p qs

/-- Sort the dictionary items by their position in `key_order`. -/
def sort_by_key_order (keyOrder : List String) :
    List (String × String) → List (String × String)
  | [] => []
  | p :: ps => sorted_insert keyOrder p (sort_by_key_order keyOrder ps)

/-- The new `dependency`/`repository` element of `pom_add_element`: a fresh
    child element whose fields are added with `pom_add_or_modify_tag` in
    `key_order` order. -/
def built_child (pfx child : String) (values : List (String × String))
    (key_order : List String) : XElem :=
  (sort_by_key_order key_order values).foldl
    (fun d kv => pom_add_or_modify_tag d (pfx ++ kv.1) kv.2 none)
    ⟨pfx ++ child, [], none, []⟩

/-- Append the freshly built child element to the collection. -/
def pom_insert_new_child (coll : XElem) (pfx child : String)
    (values : List (String × String)) (key_order : List String) : XElem :=
  ⟨coll.tag, coll.attrs, coll.text, coll.children ++ [built_child pfx child values key_order]⟩

/-- Body of `pom_add_element` once the collection element is at hand: skip
    when a child with matching comparison keys exists, else append the new
    child. -/
def pom_add_to_collection (coll : XElem) (pfx child : String)
    (values : List (String × String)) (comparison_keys key_order : List String) :
    Except Unit XElem :=
  match pom_check_if_child_exists coll pfx values comparison_keys with
  | .error e => .error e
  | .ok true => .ok coll
  | .ok false => .ok (pom_insert_new_child coll pfx child values key_order)

/-- Apply `f` to the first child carrying `tag`, threading the possible
    `AttributeError`; `none` when no child carries the tag. -/
def replace_first_by_tag (tag : String) (f : XElem → Except Unit XElem) :
    List XElem → Option (Except Unit (List XElem))
  | [] => none
  | c :: cs =>
    if c.tag == tag then
      some (match f c with
        | .error e => .error e
        | .ok c2 => .ok (c2 :: cs))
    else
      match replace_first_by_tag tag f cs with
      | none => none
      | some (.error e) => some (.error e)
      | some (.ok cs2) => some (.ok (c :: cs2))

/-- Source `pom_add_element(root, prefix, parent, child, values,
    comparison_keys, key_order)`: find or create-and-append the collection
    element `prefix + parent`, then upsert the child into it. -/
def pom_add_element (root : XElem) (pfx parent child : String)
    (values : List (String × String)) (comparison_keys key_order : List String) :
    Except Unit XElem :=
  match replace_first_by_tag (pfx ++ parent)
      (fun c => pom_add_to_collection c pfx child values comparison_keys key_order)
      root.children with
  | some (.error e) => .error e
  | some (.ok cs) => .ok ⟨root.tag, root.attrs, root.text, cs⟩
  | none =>
    match pom_add_to_collection ⟨pfx ++ parent, [], none, []⟩ pfx child values
        comparison_keys key_order with
    | .error e => .error e
    | .ok c => .ok ⟨root.tag, root.attrs, root.text, root.children ++ [c]⟩

/-! ### prepare_pom -/

/-- Attributes given to a from-scratch `project` root element. -/
def pom_attributes : List (String × String) :=
  [("xmlns", "http://maven.apache.org/POM/4.0.0"),
   ("xmlns:xsi", "http://www.w3.org/2001/XMLSchema-instance"),
   ("xsi:schemaLocation",
    "http://maven.apache.org/POM/4.0.0 http://maven.apache.org/xsd/maven-4.0.0.xsd")]

/-- The root element written when no `pom.xml` exists in the root directory. -/
def fresh_project_root : XElem :=
  ⟨"project", pom_attributes, none, []⟩

/-- Prefix detection of `prepare_pom`: with an existing pom, slice the root
    tag at the first occurrence of the literal substring `project`
    (`project.tag[:project.tag.find('project')]`), failing the assert when
    absent; without one, build `fresh_project_root` with empty prefix. -/
def detect_project_root (existing : Option XElem) : Except PyError (XElem × String) :=
  match existing with
  | some root =>
    match pyFind root.tag ("project") with
    | some i => .ok (root, pyTake root.tag i)
    | none => .error (.assertFailed
        ("The root node of the pom file should be <project>, not: " ++ root.tag))
  | none => .ok (fresh_project_root, "")

/-- Error message of `validate_and_return_sp_dep` for a line without exactly
    one `==`. -/
def dep_line_msg (line : String) : String :=
  "Spark Package dependencies must be supplied as: `:package_name==:version` in spark-package-deps.txt. Found: " ++ line

/-- Error message of `validate_and_return_sp_dep` for a package part without
    exactly one `/`. -/
def dep_name_msg (pkg : String) : String :=
  "Spark Package names must be supplied as: `:repo_owner_name/:repo_name` in spark-package-deps.txt. Found: " ++ pkg

/-- Source `validate_and_return_sp_dep(line)`. -/
def validate_and_return_sp_dep (line : String) :
    Except PyError (String × String × String) :=
  match pySplit line ("==") with
  | [pkg, ver] =>
    match pySplit pkg ("/") with
    | [owner, repo] => .ok (owner, repo, ver)
    | _ => .error (.fatal (dep_name_msg pkg))
  | _ => .error (.fatal (dep_line_msg line))

/-- Dependency dictionary built by `prepare_pom` for one spec. -/
def dep_values (g a v : String) : List (String × String) :=
  [("groupId", g), ("artifactId", a), ("version", v)]

/-- Keys compared on for dependencies. -/
def dep_comparison_keys : List String := ["groupId", "artifactId"]

/-- Field order for dependencies. -/
def dep_key_order : List String := ["groupId", "artifactId", "version"]

/-- The fixed repository dictionary of `prepare_pom`. -/
def spark_repo_values : List (String × String) :=
  [("id", "SparkPackagesRepo"),
   ("name", "Spark Packages Repository"),
   ("url", "http://dl.bintray.com/spark-packages/maven/"),
   ("layout", "default")]

/-- Field order for repositories. -/
def repo_key_order : List String := ["id", "name", "url", "layout"]

/-- The dependency loop of `prepare_pom` over the lines of
    `python/spark-package-deps.txt`. -/
def add_sp_deps (project : XElem) (pfx : String) : List String → Except PyError XElem
  | [] => .ok project
  | line :: rest =>
    let l := pyStrip line
    if pyStartswith l ("#") then add_sp_deps project pfx rest
    else
      match validate_and_return_sp_dep l with
      | .error e => .error e
      | .ok dep =>
        match pom_add_element project pfx ("dependencies") ("dependency")
            (dep_values dep.1 dep.2.1 dep.2.2) dep_comparison_keys dep_key_order with
        | .error _ => .error .attributeError
        | .ok project2 => add_sp_deps project2 pfx rest

/-- Everything `prepare_pom` does after the root element and prefix are at
    hand: the three scalar upserts at insert positions 1, 2, 3, the
    dependency loop, and the unconditional repository upsert. -/
def merge_into (project0 : XElem) (pfx group_id artifact_id ver : String)
    (depLines : Option (List String)) : Except PyError XElem :=
  let p1 := pom_add_or_modify_tag project0 (pfx ++ "groupId") group_id (some 1)
  let p2 := pom_add_or_modify_tag p1 (pfx ++ "artifactId") artifact_id (some 2)
  let p3 := pom_add_or_modify_tag p2 (pfx ++ "version") ver (some 3)
  match (match depLines with
         | some lines => add_sp_deps p3 pfx lines
         | none => .ok p3) with
  | .error e => .error e
  | .ok p4 =>
    match pom_add_element p4 pfx ("repositories") ("repository") spark_repo_values
        ["url"] repo_key_order with
    | .error _ => .error .attributeError
    | .ok p5 => .ok p5

/-- Source `prepare_pom(root_dir, name, version, out_dir)` up to (and
    excluding) serialisation: `depLines` is the line list of
    `python/spark-package-deps.txt` when that file exists. -/
def prepare_pom (existing : Option XElem) (name ver : String)
    (depLines : Option (List String)) : Except PyError XElem :=
  match pySplit (pyStrip name) ("/") with
  | [group_id, artifact_id] =>
    match detect_project_root existing with
    | .error e => .error e
    | .ok (project0, pfx) => merge_into project0 pfx group_id artifact_id ver depLines
  | _ => .error .valueError

/-! ### Name validation and the dispatcher -/

/-- Membership in the character class `[a-zA-Z0-9-_]` of the `validate_name`
    regular expression (the dash after `0-9` is literal). -/
def nameChar (c : Char) : Bool :=
  ('a' ≤ c ∧ c ≤ 'z') ∨ ('A' ≤ c ∧ c ≤ 'Z') ∨ ('0' ≤ c ∧ c ≤ '9') ∨ c = '-' ∨ c = '_'

/-- Python `re.match('^[a-zA-Z0-9-_]*$', s)` viewed as a Boolean: `*` accepts
    the empty segment, and Python's `$` also matches just before one trailing
    `'\n'`. -/
def py_name_re_match (s : String) : Bool :=
  s.data.all nameChar ∨ (s.data.getLast? = some '\n' ∧ s.data.dropLast.all nameChar)

/-- Fatal message when no name was supplied (the `name_template` tail of the
    source message is omitted; only distinctness of the messages matters). -/
def no_name_msg : String :=
  "Please specify the name of the package using -n or --name."

/-- Fatal message for a name without exactly one slash. -/
def one_slash_msg : String :=
  "The name of the package must contain exactly one slash."

/-- Fatal message for a segment rejected by the regular expression. -/
def bad_chars_msg : String :=
  "The name of the package can only contain letters, numbers, dashes, underscores, and must contain a single slash."

/-- Source `validate_name(name, p)`. -/
def validate_name (name : Option String) : Except PyError Unit :=
  match name with
  | none => .error (.fatal no_name_msg)
  | some n =>
    if (pyStrip n).data.length = 0 then .error (.fatal no_name_msg)
    else
      let fields := pySplit n ("/")
      if fields.length ≠ 2 then .error (.fatal one_slash_msg)
      else if fields.all py_name_re_match then .ok ()
      else .error (.fatal bad_chars_msg)

/-- Modelled from the spec: a package-name segment per the spec's pattern
    `[A-Za-z0-9\-_]+` — non-empty, every character in the class. -/
def spec_segment_ok (s : String) : Bool :=
  s.data ≠ [] ∧ s.data.all nameChar

/-- Command line options of `main` that the validation sequence reads.  The
    results of the two `check_path_exists` calls (which consult the file
    system) are passed in as Booleans. -/
structure CmdOptions where
  name : Option String
  ver : Option String
  folderOk : Bool
  zipOk : Bool

/-- The validation sequence of `main` (lines 634-665): positional-argument
    count, then `validate_name`, then the per-action required-flag checks.
    The actions themselves are outside this model. -/
def main_validate (arguments : List String) (opts : CmdOptions) : Except PyError Unit :=
  match arguments with
  | [] => .error (.fatal ("Please specify an action, such as 'init', 'zip', 'register' or 'publish'"))
  | [action] =>
    (match validate_name opts.name with
     | .error e => .error e
     | .ok _ =>
       if action = "init" then .ok ()
       else if action = "zip" then
         if ¬ opts.folderOk then .error (.fatal ("Please specify the folder of the spark package"))
         else match opts.ver with
           | none => .error (.fatal ("Please specify a version for the release"))
           | some v =>
             if (pyStrip v).data.length = 0 then .error (.fatal ("Please specify a version for the release"))
             else .ok ()
       else if action = "register" then .ok ()
       else if action = "publish" then
         if ¬ opts.folderOk ∧ ¬ opts.zipOk then
           .error (.fatal ("Please specify the folder of the spark package or the path to the zip file."))
         else match opts.ver with
           | none => .error (.fatal ("Please specify a version for the release"))
           | some v =>
             if (pyStrip v).data.length = 0 then .error (.fatal ("Please specify a version for the release"))
             else .ok ()
       else .error (.fatal ("Unrecognized argument " ++ action)))
  | _ => .error (.fatal ("Unrecognized arguments"))

/-! ### Licenses -/

/-- The built-in license table. -/
def licenses : List (String × String) :=
  [("Apache-2.0", "http://opensource.org/licenses/Apache-2.0"),
   ("BSD 3-Clause", "http://opensource.org/licenses/BSD-3-Clause"),
   ("BSD 2-Clause", "http://opensource.org/licenses/BSD-2-Clause"),
   ("GPL-2.0", "http://opensource.org/licenses/GPL-2.0"),
   ("GPL-3.0", "http://opensource.org/licenses/GPL-3.0"),
   ("LGPL-2.1", "http://opensource.org/licenses/LGPL-2.1"),
   ("LGPL-3.0", "http://opensource.org/licenses/LGPL-3.0"),
   ("MIT", "http://opensource.org/licenses/MIT"),
   ("MPL-2.0", "http://opensource.org/licenses/MPL-2.0"),
   ("EPL-1.0", "http://opensource.org/licenses/EPL-1.0"),
   ("other license (decide later)", "n/a")]

/-- Source `get_license_id()`: prompt for an integer, re-prompting while it is
    below `1` or above `len(licenses)`; the interactive inputs become a list,
    and running out of inputs (the tool would keep prompting) becomes `none`. -/
def get_license_id : List Int → Option Int
  | [] => none
  | x :: xs => if x < 1 ∨ x > (licenses.length : Int) then get_license_id xs else some x

/-- The `license_id` form field submitted by `publish_release`: the selected
    index minus one (source comment: the prompt is one-based, the website
    zero-based). -/
def publish_license_field (inputs : List Int) : Option Int :=
  (get_license_id inputs).map (fun v => v - 1)

/-- The index used by `init_empty_package` → `create_license_file`: the
    selected index itself (one-based). -/
def init_license_index (inputs : List Int) : Option Int :=
  get_license_id inputs

/-! ### prepare_jar and zip_artifact -/

/-- Exclusion test of the jar search in `prepare_jar`: the source tests the
    substrings against the FILE NAME only (`'lib' not in filename and ...`),
    not against the path. -/
def jar_excluded (filename : String) : Bool :=
  pyContains filename ("lib") ∨ pyContains filename ("sbt") ∨ pyContains filename ("assembly")

/-- The candidate list built by `prepare_jar` from the `os.walk` output
    (modelled as `(directory, filenames)` pairs in walk order): files matching
    `*.jar` and not excluded, as `os.path.join(root, filename)` paths. -/
def existing_jars (walk : List (String × List String)) : List String :=
  walk.foldl
    (fun acc rf =>
      acc ++ ((rf.2.filter (fun f => pyEndswith f (".jar") ∧ ¬ jar_excluded f)).map
        (fun f => rf.1 ++ "/" ++ f)))
    []

/-- Modelled from the spec: the candidate list the specification describes,
    "excluding any path containing `lib`, `sbt`, or `assembly` as a
    substring" — the exclusion applied to the joined path instead of the
    file name. -/
def claimed_jar_candidates (walk : List (String × List String)) : List String :=
  walk.foldl
    (fun acc rf =>
      acc ++ ((rf.2.filter (fun f => pyEndswith f (".jar"))).map
        (fun f => rf.1 ++ "/" ++ f)).filter (fun p => ¬ jar_excluded p))
    []

/-- Fatal message when sources exist but no candidate jar remains. -/
def no_jar_msg : String :=
  "Your directory contains java or scala code but a jar could not be found. Please build your spark package before calling zip.\nIf the jar is in a directory like lib/, zip omits those jars. Please move your jar elsewhere to use zip properly."

/-- Fatal message when more than one candidate jar remains. -/
def multiple_jars_msg : String :=
  "Your directory contains multiple jars. We only need your package jar, not the assembly jar, nor any jars that your package depends on.\nIf there are dependency jars in your folder, please place them under lib/ and add them to your pom or sbt build file."

/-- The jar-selection step of `prepare_jar`: run only when `src/main/scala`
    or `src/main/java` exists; returns the single jar whose entries are then
    copied verbatim into the new archive. -/
def prepare_jar_select (hasSrc : Bool) (walk : List (String × List String)) :
    Except PyError (Option String) :=
  if hasSrc then
    match existing_jars walk with
    | [] => .error (.fatal no_jar_msg)
    | [j] => .ok (some j)
    | _ => .error (.fatal multiple_jars_msg)
  else .ok none

/-- Source `get_license_file_name(root_dir)` over the directory listing. -/
def get_license_file_name (files : List String) : Option String :=
  if files.contains ("LICENSE") then some ("LICENSE")
  else if files.contains ("LICENSE.txt") then some ("LICENSE.txt")
  else if files.contains ("LICENSE.md") then some ("LICENSE.md")
  else none

/-- Source `validate_files_exist(root_dir)`. -/
def validate_files_exist (files : List String) : Except PyError Unit :=
  if ¬ files.contains ("README.md") then
    .error (.fatal ("Cannot find README.md in the root directory of the package."))
  else
    match get_license_file_name files with
    | none => .error (.fatal ("Cannot find LICENSE in the root directory of the package."))
    | some _ => .ok ()

/-- The package root directory as `zip_artifact` observes it. -/
structure RootDir where
  files : List String
  hasScala : Bool
  hasJava : Bool
  walk : List (String × List String)
  existingPom : Option XElem
  depLines : Option (List String)

/-- File outputs `zip_artifact` writes, in order: the jar (built by
    `prepare_jar`), the pom (written by `prepare_pom`), the final zip. -/
inductive FsEvent where
  | wroteJar
  | wrotePom
  | wroteZip
  deriving DecidableEq

/-- Source `zip_artifact(root_dir, name, version, out_dir)` as a trace of file
    outputs plus the final result: `validate_name`, `validate_files_exist`,
    `prepare_jar` (jar written on success), `prepare_pom` (pom written on
    success), then the zip. -/
def zip_artifact (root : RootDir) (name ver : String) :
    List FsEvent × Except PyError Unit :=
  match validate_name (some name) with
  | .error e => ([], .error e)
  | .ok _ =>
    match validate_files_exist root.files with
    | .error e => ([], .error e)
    | .ok _ =>
      match prepare_jar_select (root.hasScala ∨ root.hasJava) root.walk with
      | .error e => ([], .error e)
      | .ok _ =>
        match prepare_pom root.existingPom name ver root.depLines with
        | .error e => ([.wroteJar], .error e)
        | .ok _ => ([.wroteJar, .wrotePom, .wroteZip], .ok ())

/-! ### Derived notions used to state the collection-upsert claims -/

/-- A collection child matches the dictionary on every comparison key: each
    key element exists and its text equals the dictionary value (the
    condition under which `pom_check_if_child_exists` counts a full match). -/
def child_matches (c : XElem) (pfx : String) (values : List (String × String))
    (keys : List String) : Prop :=
  ∀ t ∈ keys, ∃ k, findChild c (pfx ++ t) = some k ∧ k.text = some (dictGet values t)

/-- The key tuple of a collection child: the text of each comparison-key
    element (missing element or missing text as `none`). -/
def child_key (c : XElem) (pfx : String) (keys : List String) : List (Option String) :=
  keys.map (fun t => (findChild c (pfx ++ t)).bind XElem.text)

/-- No two children of the collection share a key tuple. -/
def keys_unique (cs : List XElem) (pfx : String) (keys : List String) : Prop :=
  List.Pairwise (fun x y => child_key x pfx keys ≠ child_key y pfx keys) cs

/-- The children of the first element carrying `tag` (empty when absent). -/
def collChildren (root : XElem) (tag : String) : List XElem :=
  ((findChild root tag).map XElem.children).getD []

/-- The dependency element `pom_add_element` builds for a spec `(g, a, v)`:
    fields in key order groupId, artifactId, version. -/
def dep_elem (pfx g a v : String) : XElem :=
  ⟨pfx ++ "dependency", [], none,
   [⟨pfx ++ "groupId", [], some g, []⟩,
    ⟨pfx ++ "artifactId", [], some a, []⟩,
    ⟨pfx ++ "version", [], some v, []⟩]⟩

/-- The fixed repository element, fields in key order id, name, url, layout. -/
def repo_elem (pfx : String) : XElem :=
  ⟨pfx ++ "repository", [], none,
   [⟨pfx ++ "id", [], some ("SparkPackagesRepo"), []⟩,
    ⟨pfx ++ "name", [], some ("Spark Packages Repository"), []⟩,
    ⟨pfx ++ "url", [], some ("http://dl.bintray.com/spark-packages/maven/"), []⟩,
    ⟨pfx ++ "layout", [], some ("default"), []⟩]⟩

/-! ### Serialise-and-reparse model for the idempotence claim

`prepare_pom` serialises the merged document with `Xml.tostring` followed by
minidom pretty-printing.  For a document built from scratch the root carries a
literal `xmlns` attribute naming the Maven namespace and every element is
created with an unprefixed tag, so re-parsing the serialised bytes with
`Xml.parse` expands every element tag to
`{http://maven.apache.org/POM/4.0.0}tag` (ElementTree's universal-name form).
`reparse` models that round trip as the uniform tag map.  Pretty-printing also
adds indentation whitespace to the text of elements that have child elements;
the merge never reads the text of such container elements (it compares only
the text of the leaf key elements, which `toprettyxml` writes inline and
unchanged), so that whitespace is not modelled. -/

/-- The brace-wrapped Maven namespace that `xml.etree` prepends to every tag
    when re-parsing the serialised document. -/
def ns_brace : String := "\x7bhttp://maven.apache.org/POM/4.0.0\x7d"

/-- Tag expansion applied by the re-parse. -/
def nsb_tag (t : String) : String := ns_brace ++ t

mutual

/-- Apply a tag map uniformly to an element tree. -/
def map_tags (f : String → String) : XElem → XElem
  | ⟨t, ats, tx, cs⟩ => ⟨f t, ats, tx, map_tags_list f cs⟩

/-- Apply a tag map uniformly to a list of element trees. -/
def map_tags_list (f : String → String) : List XElem → List XElem
  | [] => []
  | c :: cs => map_tags f c :: map_tags_list f cs

end

/-- Serialise-then-parse of a from-scratch merged document (see the section
    comment above). -/
def reparse (d : XElem) : XElem := map_tags nsb_tag d

/-! ### C6: jar selection (code bug: exclusion tested on the file name only) -/

/-- The walk of a root directory holding a built jar under `target/` and a
    dependency jar under `lib/`. -/
def c6_walk : List (String × List String) :=
  [(".", []), ("./target", ["pkg.jar"]), ("./lib", ["dep.jar"])]

/-- The well-formedness of one dependency line as both the spec and
    `validate_and_return_sp_dep` define it: exactly one `==` in the line and
    exactly one `/` in the package part. -/
def dep_spec_form_ok (l : String) : Bool :=
  match pySplit l ("==") with
  | [pkg, _] => (pySplit pkg ("/")).length = 2
  | _ => false

/-- The root directory of the C7 counterexample: a pure-python package whose
    dependency file holds the single line `wrong/format`. -/
def c7_root : RootDir :=
  ⟨["README.md", "LICENSE"], false, false, [], none, some ["wrong/format"]⟩

/-- An existing pom whose `dependencies` collection already holds two entries
    with the same `(groupId, artifactId)` key. -/
def c1_dup_pom : XElem :=
  ⟨"project", [], none,
   [⟨"dependencies", [], none,
     [dep_elem ("") ("x") ("y") ("1"), dep_elem ("") ("x") ("y") ("2")]⟩]⟩

/-- C3 counterexample: the claim says the freshly created child is appended
    when the document already has more children than the position; but on a
    root with four children the `groupId` child is inserted at position 1,
    not appended. -/
def c3_root : XElem :=
  ⟨"project", [], none,
   [⟨"a", [], none, []⟩, ⟨"b", [], none, []⟩, ⟨"c", [], none, []⟩, ⟨"d", [], none, []⟩]⟩

/-- An existing pom whose `dependencies` collection holds a `dependency`
    child without a `groupId` (or any other) key element. -/
def c8_pom : XElem :=
  ⟨"project", [], none, [⟨"dependencies", [], none, [⟨"dependency", [], none, []⟩]⟩]⟩

/-- C6: the source comment and its error messages promise that jars under
    `lib/` are omitted, and the claim says any candidate whose PATH contains
    `lib`, `sbt` or `assembly` is excluded; but the code tests the substrings
    against the file name only, so `./lib/dep.jar` stays a candidate and the
    merge of one built jar plus one `lib/` jar dies with the `multiple jars`
    error instead of selecting the single built jar the path-based rule
    leaves. -/
theorem prepare_jar_excludes_filename_not_path :
    existing_jars c6_walk = ["./target/pkg.jar", "./lib/dep.jar"] ∧
    prepare_jar_select true c6_walk = .error (.fatal multiple_jars_msg) ∧
    claimed_jar_candidates c6_walk = ["./target/pkg.jar"] ∧
    pyContains multiple_jars_msg ("multiple jars") = true ∧
    pyContains no_jar_msg ("jar could not be found") = true ∧
    prepare_jar_select true [(".", [])] = .error (.fatal no_jar_msg) :=
  ⟨rfl, rfl, rfl, by decide, by decide, rfl⟩

/-! ### C7 and C9: malformed and blank dependency lines -/

lemma validate_sp_dep_err_of_bad_form (l : String) (h : dep_spec_form_ok l = false) :
    ∃ m, validate_and_return_sp_dep l = .error (.fatal m) := by
  simp only [dep_spec_form_ok] at h
  simp only [validate_and_return_sp_dep]
  split at h
  · rename_i pkg ver heq
    split
    · rename_i owner repo hsp
      rw [hsp] at h
      simp at h
    · exact ⟨_, rfl⟩
  · exact ⟨_, rfl⟩

lemma add_sp_deps_err_of_bad_line :
    ∀ (lines : List String) (project : XElem) (pfx line : String),
      line ∈ lines →
      pyStartswith (pyStrip line) ("#") = false →
      dep_spec_form_ok (pyStrip line) = false →
      ∃ e, add_sp_deps project pfx lines = .error e := by
  intro lines
  induction lines with
  | nil => intro _ _ _ hmem; cases hmem
  | cons l0 rest ih =>
    intro project pfx line hmem hhash hform
    simp only [add_sp_deps]
    rcases List.mem_cons.mp hmem with rfl | hmem'
    · rw [hhash]
      simp only [Bool.false_eq_true, if_false]
      obtain ⟨m, hm⟩ := validate_sp_dep_err_of_bad_form _ hform
      rw [hm]
      exact ⟨_, rfl⟩
    · split
      · exact ih project pfx line hmem' hhash hform
      · split
        · exact ⟨_, rfl⟩
        · split
          · exact ⟨_, rfl⟩
          · exact ih _ pfx line hmem' hhash hform

lemma prepare_pom_err_of_bad_line (existing : Option XElem) (name ver : String)
    (lines : List String) (line : String)
    (hmem : line ∈ lines)
    (hhash : pyStartswith (pyStrip line) ("#") = false)
    (hform : dep_spec_form_ok (pyStrip line) = false) :
    ∃ e, prepare_pom existing name ver (some lines) = .error e := by
  simp only [prepare_pom]
  split
  · split
    · exact ⟨_, rfl⟩
    · rename_i project0 pfx _
      simp only [merge_into]
      obtain ⟨e, he⟩ := add_sp_deps_err_of_bad_line lines _ pfx line hmem hhash hform
      rw [he]
      exact ⟨_, rfl⟩
  · exact ⟨_, rfl⟩

lemma zip_fails_of_bad_dep_line (root : RootDir) (name ver : String)
    (lines : List String) (line : String)
    (hdep : root.depLines = some lines)
    (hmem : line ∈ lines)
    (hhash : pyStartswith (pyStrip line) ("#") = false)
    (hform : dep_spec_form_ok (pyStrip line) = false) :
    (∃ e, (zip_artifact root name ver).2 = .error e) ∧
      FsEvent.wrotePom ∉ (zip_artifact root name ver).1 ∧
      FsEvent.wroteZip ∉ (zip_artifact root name ver).1 := by
  obtain ⟨e, he⟩ := prepare_pom_err_of_bad_line root.existingPom name ver lines line
    hmem hhash hform
  simp only [zip_artifact, hdep]
  split
  · exact ⟨⟨_, rfl⟩, by simp, by simp⟩
  · split
    · exact ⟨⟨_, rfl⟩, by simp, by simp⟩
    · split
      · exact ⟨⟨_, rfl⟩, by simp, by simp⟩
      · rw [he]
        exact ⟨⟨_, rfl⟩, by simp, by simp⟩

/-- C7 counterexample: the claim says the zip invocation fails before ANY
    output is written, but `prepare_jar` has already written the jar (into the
    un-cleaned temporary directory inside the output directory) before
    `prepare_pom` reads the malformed dependency line. -/
theorem zip_bad_dep_line_after_jar_written :
    zip_artifact c7_root "a/b" "1.0" =
        ([.wroteJar], .error (.fatal (dep_line_msg ("wrong/format")))) ∧
      ([FsEvent.wroteJar] : List FsEvent) ≠ [] :=
  ⟨rfl, by decide⟩

/-- C7 amended: a non-comment line of `python/spark-package-deps.txt` that
    violates the dependency-spec form (exactly one `==` in the line, exactly
    one `/` in the package part) makes the whole zip invocation fail fatally
    before the pom or the zip output is written — though after the jar has
    been written to the temporary scratch directory. -/
theorem zip_fails_before_pom_and_zip (root : RootDir) (name ver : String)
    (lines : List String) (line : String)
    (hdep : root.depLines = some lines)
    (hmem : line ∈ lines)
    (hhash : pyStartswith (pyStrip line) ("#") = false)
    (hform : dep_spec_form_ok (pyStrip line) = false) :
    (∃ e, (zip_artifact root name ver).2 = .error e) ∧
      FsEvent.wrotePom ∉ (zip_artifact root name ver).1 ∧
      FsEvent.wroteZip ∉ (zip_artifact root name ver).1 :=
  zip_fails_of_bad_dep_line root name ver lines line hdep hmem hhash hform

/-- C7 witness: on the concrete counterexample directory the invocation
    errors and neither the pom nor the zip is ever written. -/
theorem zip_fails_before_pom_and_zip_witness :
    FsEvent.wrotePom ∉ (zip_artifact c7_root "a/b" "1.0").1 ∧
      FsEvent.wroteZip ∉ (zip_artifact c7_root "a/b" "1.0").1 :=
  (zip_fails_before_pom_and_zip c7_root "a/b" "1.0" ["wrong/format"] ("wrong/format")
    rfl (by decide) rfl rfl).2

/-- C9: a blank line in `python/spark-package-deps.txt` is not ignored: it is
    neither a `#` comment nor a valid spec, so the dependency loop dies on it
    with the malformed-dependency message, and any zip invocation whose
    dependency file holds a blank line fails. -/
theorem blank_dep_line_fatal :
    (∀ (project : XElem) (pfx line : String) (rest : List String),
      pyStrip line = "" →
      add_sp_deps project pfx (line :: rest) = .error (.fatal (dep_line_msg ("")))) ∧
    (∀ (root : RootDir) (name ver : String) (lines : List String) (line : String),
      root.depLines = some lines → line ∈ lines → pyStrip line = "" →
      ∃ e, (zip_artifact root name ver).2 = .error e) := by
  constructor
  · intro project pfx line rest h
    simp only [add_sp_deps, h]
    rfl
  · intro root name ver lines line hdep hmem hblank
    refine (zip_fails_of_bad_dep_line root name ver lines line hdep hmem ?_ ?_).1
    · rw [hblank]; rfl
    · rw [hblank]; rfl

/-- C9 witness: a whitespace-only line kills the dependency loop with the
    malformed-dependency message. -/
theorem blank_dep_line_fatal_witness :
    add_sp_deps fresh_project_root ("") ["  "] = .error (.fatal (dep_line_msg (""))) :=
  blank_dep_line_fatal.1 fresh_project_root ("") ("  ") [] rfl

/-! ### String and check-loop lemmas shared by the collection claims -/

lemma str_append_right_inj (p : String) {a b : String} : p ++ a = p ++ b ↔ a = b := by
  constructor
  · intro h
    have h2 := congrArg String.data h
    simp only [String.data_append] at h2
    exact String.ext (List.append_cancel_left h2)
  · rintro rfl; rfl

lemma tag_beq_append (p a b : String) : ((p ++ a) == (p ++ b)) = (a == b) := by
  by_cases h : a = b
  · subst h; simp
  · have hne : p ++ a ≠ p ++ b := fun hc => h ((str_append_right_inj p).mp hc)
    simp [h, hne]

lemma count_tag_matches_ok_spec (c : XElem) (pfx : String)
    (vals : List (String × String)) :
    ∀ (ts : List String) (n : Nat), count_tag_matches c pfx vals ts = .ok n →
      n ≤ ts.length ∧ (n = ts.length ↔ child_matches c pfx vals ts) := by
  intro ts
  induction ts with
  | nil =>
    intro n h
    simp only [count_tag_matches] at h
    cases h
    exact ⟨le_refl _, by simp [child_matches]⟩
  | cons t ts ih =>
    intro n h
    simp only [count_tag_matches] at h
    split at h
    · cases h
    · rename_i key hkey
      split at h
      · cases h
      · rename_i m hm
        obtain ⟨hle, hiff⟩ := ih m hm
        split at h
        · rename_i htext
          cases h
          refine ⟨by simp only [List.length_cons]; omega, ?_⟩
          constructor
          · intro hn
            have hm' : m = ts.length := by simpa using hn
            intro t' ht'
            rcases List.mem_cons.mp ht' with rfl | h'
            · exact ⟨key, hkey, htext⟩
            · exact hiff.mp hm' t' h'
          · intro hmatch
            have : m = ts.length := hiff.mpr (fun t' ht' => hmatch t' (by simp [ht']))
            simp [this]
        · rename_i htext
          cases h
          refine ⟨by simp only [List.length_cons]; omega, ?_⟩
          constructor
          · intro hn
            exact absurd hn (by simp only [List.length_cons]; omega)
          · intro hmatch
            obtain ⟨k, hk, hkt⟩ := hmatch t (by simp)
            rw [hkey] at hk
            cases hk
            exact absurd hkt htext

lemma pcm_true (pfx : String) (vals : List (String × String)) (ks : List String) :
    ∀ cs : List XElem, pom_children_match pfx vals ks cs = .ok true →
      ∃ c ∈ cs, child_matches c pfx vals ks := by
  intro cs
  induction cs with
  | nil => intro h; cases h
  | cons c cs ih =>
    intro h
    simp only [pom_children_match] at h
    split at h
    · cases h
    · rename_i n hn
      split at h
      · rename_i hlen
        exact ⟨c, by simp, ((count_tag_matches_ok_spec c pfx vals ks n hn).2).mp hlen⟩
      · obtain ⟨c', hc', hm⟩ := ih h
        exact ⟨c', by simp [hc'], hm⟩

lemma pcm_false (pfx : String) (vals : List (String × String)) (ks : List String) :
    ∀ cs : List XElem, pom_children_match pfx vals ks cs = .ok false →
      ∀ c ∈ cs, ¬ child_matches c pfx vals ks := by
  intro cs
  induction cs with
  | nil => intro _ c hc; cases hc
  | cons c0 cs ih =>
    intro h c hc
    simp only [pom_children_match] at h
    split at h
    · cases h
    · rename_i n hn
      split at h
      · cases h
      · rename_i hlen
        rcases List.mem_cons.mp hc with rfl | hc'
        · intro hmatch
          exact hlen (((count_tag_matches_ok_spec c pfx vals ks n hn).2).mpr hmatch)
        · exact ih h c hc'

lemma pcm_append (pfx : String) (vals : List (String × String)) (ks : List String) :
    ∀ cs ds : List XElem,
      pom_children_match pfx vals ks (cs ++ ds) =
        match pom_children_match pfx vals ks cs with
        | .ok true => .ok true
        | .ok false => pom_children_match pfx vals ks ds
        | .error e => .error e := by
  intro cs ds
  induction cs with
  | nil => simp [pom_children_match]
  | cons c cs ih =>
    simp only [List.cons_append, pom_children_match]
    split
    · rfl
    · split
      · rfl
      · exact ih

lemma child_matches_iff_key (c : XElem) (pfx : String)
    (vals : List (String × String)) :
    ∀ ks : List String, child_matches c pfx vals ks ↔
      child_key c pfx ks = ks.map (fun t => some (dictGet vals t)) := by
  intro ks
  induction ks with
  | nil => simp [child_matches, child_key]
  | cons t ts ih =>
    simp only [child_key, List.map_cons, List.cons_eq_cons]
    constructor
    · intro h
      obtain ⟨k, hk, hkt⟩ := h t (by simp)
      refine ⟨by simp [hk, hkt], ?_⟩
      exact ih.mp (fun t' ht' => h t' (by simp [ht']))
    · rintro ⟨h1, h2⟩
      intro t' ht'
      rcases List.mem_cons.mp ht' with rfl | ht''
      · obtain ⟨k, hk, hkt⟩ := Option.bind_eq_some.mp h1
        exact ⟨k, hk, hkt⟩
      · exact (ih.mpr h2) t' ht''

/-! ### Structural lemmas about find and replace-first -/

lemma findChild_first (t : String) :
    ∀ (pre : List XElem) (c : XElem) (post : List XElem), c.tag = t →
      (∀ x ∈ pre, x.tag ≠ t) →
      List.find? (fun x => x.tag == t) (pre ++ c :: post) = some c := by
  intro pre
  induction pre with
  | nil =>
    intro c post hct _
    simp [List.find?, hct]
  | cons x pre ih =>
    intro c post hct hpre
    have hx : (x.tag == t) = false := by simpa using hpre x (by simp)
    simp only [List.cons_append, List.find?, hx]
    exact ih c post hct (fun y hy => hpre y (by simp [hy]))

lemma find_middle_ne (s : String) :
    ∀ (pre : List XElem) (c c2 : XElem) (post : List XElem),
      c.tag ≠ s → c2.tag ≠ s →
      List.find? (fun x => x.tag == s) (pre ++ c :: post) =
        List.find? (fun x => x.tag == s) (pre ++ c2 :: post) := by
  intro pre
  induction pre with
  | nil =>
    intro c c2 post h1 h2
    have h1' : (c.tag == s) = false := by simpa using h1
    have h2' : (c2.tag == s) = false := by simpa using h2
    simp only [List.nil_append, List.find?, h1', h2']
  | cons x pre ih =>
    intro c c2 post h1 h2
    simp only [List.cons_append, List.find?]
    cases hx : (x.tag == s)
    · exact ih c c2 post h1 h2
    · rfl

lemma find_append_ne_last (s : String) (x : XElem) (hx : x.tag ≠ s) :
    ∀ cs : List XElem,
      List.find? (fun c => c.tag == s) (cs ++ [x]) =
        List.find? (fun c => c.tag == s) cs := by
  intro cs
  induction cs with
  | nil =>
    have hx' : (x.tag == s) = false := by simpa using hx
    simp only [List.nil_append, List.find?, hx']
  | cons c cs ih =>
    simp only [List.cons_append, List.find?]
    cases hc : (c.tag == s)
    · exact ih
    · rfl

lemma replace_first_by_tag_none (t : String) (f : XElem → Except Unit XElem) :
    ∀ cs : List XElem, replace_first_by_tag t f cs = none ↔ ∀ c ∈ cs, c.tag ≠ t := by
  intro cs
  induction cs with
  | nil => simp [replace_first_by_tag]
  | cons c cs ih =>
    simp only [replace_first_by_tag]
    split
    · rename_i hct
      constructor
      · intro h; cases h
      · intro h
        exact absurd (by simpa using hct) (h c (by simp))
    · rename_i hct
      have hct' : c.tag ≠ t := by simpa using hct
      constructor
      · intro h
        split at h
        · rename_i hrec
          intro x hx
          rcases List.mem_cons.mp hx with rfl | hx'
          · exact hct'
          · exact (ih.mp hrec) x hx'
        · cases h
        · cases h
      · intro h
        rw [(ih.mpr (fun x hx => h x (by simp [hx])))]

lemma replace_first_by_tag_some (t : String) (f : XElem → Except Unit XElem) :
    ∀ (cs : List XElem) (r : Except Unit (List XElem)),
      replace_first_by_tag t f cs = some r →
      ∃ pre c post, cs = pre ++ c :: post ∧ c.tag = t ∧ (∀ x ∈ pre, x.tag ≠ t) ∧
        ((∃ e, f c = .error e ∧ r = .error e) ∨
         (∃ c2, f c = .ok c2 ∧ r = .ok (pre ++ c2 :: post))) := by
  intro cs
  induction cs with
  | nil => intro r h; cases h
  | cons c0 cs ih =>
    intro r h
    simp only [replace_first_by_tag] at h
    split at h
    · rename_i hct
      cases h
      refine ⟨[], c0, cs, rfl, by simpa using hct, by simp, ?_⟩
      cases hf : f c0
      · exact Or.inl ⟨_, rfl, by simp [hf]⟩
      · exact Or.inr ⟨_, rfl, by simp [hf]⟩
    · rename_i hct
      have hct' : c0.tag ≠ t := by simpa using hct
      split at h
      · cases h
      · rename_i hrec
        cases h
        obtain ⟨pre, c, post, hcs, hc, hpre, hcase⟩ := ih _ hrec
        refine ⟨c0 :: pre, c, post, by simp [hcs], hc, ?_, ?_⟩
        · intro x hx
          rcases List.mem_cons.mp hx with rfl | hx'
          · exact hct'
          · exact hpre x hx'
        · rcases hcase with ⟨e, hf, hr⟩ | ⟨c2, hf, hr⟩
          · cases hr
            exact Or.inl ⟨_, hf, rfl⟩
          · cases hr
      · rename_i hrec
        cases h
        obtain ⟨pre, c, post, hcs, hc, hpre, hcase⟩ := ih _ hrec
        refine ⟨c0 :: pre, c, post, by simp [hcs], hc, ?_, ?_⟩
        · intro x hx
          rcases List.mem_cons.mp hx with rfl | hx'
          · exact hct'
          · exact hpre x hx'
        · rcases hcase with ⟨e, hf, hr⟩ | ⟨c2, hf, hr⟩
          · cases hr
          · rename_i cs2 _
            cases hr
            exact Or.inr ⟨c2, hf, by simp⟩

lemma add_to_coll_spec (coll coll2 : XElem) (pfx ch : String)
    (vals : List (String × String)) (ck ko : List String)
    (h : pom_add_to_collection coll pfx ch vals ck ko = .ok coll2) :
    coll2.tag = coll.tag ∧ coll2.attrs = coll.attrs ∧ coll2.text = coll.text ∧
      ((pom_children_match pfx vals ck coll.children = .ok true ∧ coll2 = coll) ∨
       (pom_children_match pfx vals ck coll.children = .ok false ∧
        coll2.children = coll.children ++ [built_child pfx ch vals ko])) := by
  simp only [pom_add_to_collection, pom_check_if_child_exists] at h
  split at h
  · cases h
  · rename_i hb
    cases h
    exact ⟨rfl, rfl, rfl, Or.inl ⟨hb, rfl⟩⟩
  · rename_i hb
    cases h
    exact ⟨rfl, rfl, rfl, Or.inr ⟨hb, rfl⟩⟩

lemma pom_add_element_spec (root root2 : XElem) (pfx par ch : String)
    (vals : List (String × String)) (ck ko : List String)
    (h : pom_add_element root pfx par ch vals ck ko = .ok root2) :
    root2.tag = root.tag ∧ root2.attrs = root.attrs ∧ root2.text = root.text ∧
      (∀ s, s ≠ pfx ++ par → findChild root2 s = findChild root s) ∧
      ((pom_children_match pfx vals ck (collChildren root (pfx ++ par)) = .ok true ∧
        collChildren root2 (pfx ++ par) = collChildren root (pfx ++ par)) ∨
       (pom_children_match pfx vals ck (collChildren root (pfx ++ par)) = .ok false ∧
        collChildren root2 (pfx ++ par) =
          collChildren root (pfx ++ par) ++ [built_child pfx ch vals ko])) := by
  simp only [pom_add_element] at h
  split at h
  · cases h
  · rename_i cs hr
    cases h
    obtain ⟨pre, c, post, hcs, hct, hpre, hcase⟩ := replace_first_by_tag_some _ _ _ _ hr
    rcases hcase with ⟨e, hf, he⟩ | ⟨c2, hf, hok⟩
    · cases he
    · cases hok
      obtain ⟨htag, hattrs, htext, hdisj⟩ := add_to_coll_spec c c2 pfx ch vals ck ko hf
      have hfind : findChild root (pfx ++ par) = some c := by
        simp only [findChild, hcs]
        exact findChild_first _ pre c post hct hpre
      have hfind2 : findChild ⟨root.tag, root.attrs, root.text, pre ++ c2 :: post⟩
          (pfx ++ par) = some c2 := by
        simp only [findChild]
        exact findChild_first _ pre c2 post (htag.trans hct) hpre
      refine ⟨rfl, rfl, rfl, ?_, ?_⟩
      · intro s hs
        simp only [findChild, hcs]
        exact (find_middle_ne s pre c c2 post
          (by rw [hct]; exact fun hc2 => hs hc2.symm)
          (by rw [htag, hct]; exact fun hc2 => hs hc2.symm)).symm
      · simp only [collChildren, hfind, hfind2, Option.map_some, Option.getD_some]
        rcases hdisj with ⟨hb, rfl⟩ | ⟨hb, hch⟩
        · exact Or.inl ⟨hb, rfl⟩
        · exact Or.inr ⟨hb, hch⟩
  · rename_i hnone
    split at h
    · cases h
    · rename_i collNew hf
      cases h
      have hall : ∀ x ∈ root.children, x.tag ≠ pfx ++ par :=
        (replace_first_by_tag_none _ _ root.children).mp hnone
      have hfind : findChild root (pfx ++ par) = none := by
        simp only [findChild]
        exact List.find?_eq_none.mpr (fun x hx => by simpa using hall x hx)
      obtain ⟨htag, hattrs, htext, hdisj⟩ :=
        add_to_coll_spec ⟨pfx ++ par, [], none, []⟩ collNew pfx ch vals ck ko hf
      have hnew : collNew.tag = pfx ++ par := htag
      have hfind2 : findChild ⟨root.tag, root.attrs, root.text, root.children ++ [collNew]⟩
          (pfx ++ par) = some collNew := by
        simp only [findChild]
        exact findChild_first _ root.children collNew [] hnew hall
      refine ⟨rfl, rfl, rfl, ?_, ?_⟩
      · intro s hs
        simp only [findChild, hfind]
        rw [find_append_ne_last s collNew (by rw [hnew]; exact fun hc => hs hc.symm)]
      · simp only [collChildren, hfind, hfind2, Option.map_some, Option.getD_some,
          Option.map_none, Option.getD_none]
        rcases hdisj with ⟨hb, heq⟩ | ⟨hb, hch⟩
        · cases hb
        · exact Or.inr ⟨rfl, by simpa using hch⟩

/-! ### First-occurrence decompositions for children lists -/

lemma exists_first_with_tag (tag : String) :
    ∀ cs : List XElem, (∃ c ∈ cs, c.tag = tag) →
      ∃ pre c post, cs = pre ++ c :: post ∧ c.tag = tag ∧ ∀ x ∈ pre, x.tag ≠ tag := by
  intro cs
  induction cs with
  | nil => rintro ⟨c, hc, -⟩; cases hc
  | cons c0 cs ih =>
    intro hex
    by_cases h0 : c0.tag = tag
    · exact ⟨[], c0, cs, rfl, h0, by simp⟩
    · have : ∃ c ∈ cs, c.tag = tag := by
        obtain ⟨c, hc, hct⟩ := hex
        rcases List.mem_cons.mp hc with rfl | h
        · exact absurd hct h0
        · exact ⟨c, h, hct⟩
      obtain ⟨pre, c, post, hcs, hct, hpre⟩ := ih this
      refine ⟨c0 :: pre, c, post, by rw [hcs]; rfl, hct, ?_⟩
      intro x hx
      rcases List.mem_cons.mp hx with rfl | h
      · exact h0
      · exact hpre x h

lemma set_text_first_found (tag txt : String) :
    ∀ (pre : List XElem) (c : XElem) (post : List XElem),
      c.tag = tag → (∀ x ∈ pre, x.tag ≠ tag) →
      set_text_first tag txt (pre ++ c :: post) =
        some (pre ++ ⟨c.tag, c.attrs, some txt, c.children⟩ :: post) := by
  intro pre
  induction pre with
  | nil =>
    intro c post hct _
    simp only [List.nil_append, set_text_first]
    rw [if_pos (by simp [hct])]
  | cons x pre ih =>
    intro c post hct hpre
    have hx : x.tag ≠ tag := hpre x (by simp)
    simp only [List.cons_append, set_text_first]
    rw [if_neg (by simpa using hx)]
    simp only [List.append_eq]
    rw [ih c post hct (fun y hy => hpre y (by simp [hy]))]
    rfl

lemma set_text_first_none (tag txt : String) :
    ∀ cs : List XElem, (∀ c ∈ cs, c.tag ≠ tag) → set_text_first tag txt cs = none := by
  intro cs
  induction cs with
  | nil => intro _; rfl
  | cons c0 cs ih =>
    intro h
    simp only [set_text_first]
    rw [if_neg (by simpa using h c0 (by simp)), ih (fun c hc => h c (by simp [hc]))]
    rfl

/-! ### Evaluation of the built collection children and merge-walk lemmas -/

lemma append_ne (p : String) {a b : String} (h : a ≠ b) : p ++ a ≠ p ++ b :=
  fun hc => h ((str_append_right_inj p).mp hc)

lemma sort_dep_values_id (g a v : String) :
    sort_by_key_order dep_key_order (dep_values g a v) = dep_values g a v := rfl

lemma sort_repo_values_id :
    sort_by_key_order repo_key_order spark_repo_values = spark_repo_values := rfl

lemma built_child_dep (pfx g a v : String) :
    built_child pfx ("dependency") (dep_values g a v) dep_key_order =
      dep_elem pfx g a v := by
  have e1 : (("groupId" : String) == "artifactId") = false := by decide
  have e2 : (("groupId" : String) == "version") = false := by decide
  have e3 : (("artifactId" : String) == "version") = false := by decide
  simp [built_child, sort_dep_values_id, dep_values, List.foldl,
    pom_add_or_modify_tag, set_text_first, tag_beq_append, e1, e2, e3, dep_elem]

lemma built_child_repo (pfx : String) :
    built_child pfx ("repository") spark_repo_values repo_key_order =
      repo_elem pfx := by
  have e1 : (("id" : String) == "name") = false := by decide
  have e2 : (("id" : String) == "url") = false := by decide
  have e3 : (("id" : String) == "layout") = false := by decide
  have e4 : (("name" : String) == "url") = false := by decide
  have e5 : (("name" : String) == "layout") = false := by decide
  have e6 : (("url" : String) == "layout") = false := by decide
  simp [built_child, sort_repo_values_id, spark_repo_values, List.foldl,
    pom_add_or_modify_tag, set_text_first, tag_beq_append, e1, e2, e3, e4, e5, e6,
    repo_elem]

lemma dep_elem_matches (pfx g a v : String) :
    child_matches (dep_elem pfx g a v) pfx (dep_values g a v) dep_comparison_keys := by
  intro t ht
  simp only [dep_comparison_keys, List.mem_cons, List.mem_singleton] at ht
  rcases ht with rfl | ht
  · refine ⟨⟨pfx ++ "groupId", [], some g, []⟩, ?_, rfl⟩
    simp [dep_elem, findChild, List.find?]
  · simp only [List.not_mem_nil, or_false] at ht
    subst ht
    refine ⟨⟨pfx ++ "artifactId", [], some a, []⟩, ?_, rfl⟩
    simp [dep_elem, findChild, List.find?, tag_beq_append]

lemma repo_elem_matches (pfx : String) :
    child_matches (repo_elem pfx) pfx spark_repo_values ["url"] := by
  intro t ht
  simp only [List.mem_singleton] at ht
  subst ht
  refine ⟨⟨pfx ++ "url", [], some ("http://dl.bintray.com/spark-packages/maven/"), []⟩, ?_, rfl⟩
  simp [repo_elem, findChild, List.find?, tag_beq_append]

lemma keys_unique_append_built (cs : List XElem) (pfx : String)
    (vals : List (String × String)) (ck : List String) (x : XElem)
    (hmatch : child_matches x pfx vals ck)
    (hfalse : pom_children_match pfx vals ck cs = .ok false)
    (hu : keys_unique cs pfx ck) : keys_unique (cs ++ [x]) pfx ck := by
  rw [keys_unique, List.pairwise_append]
  refine ⟨hu, List.pairwise_singleton _ _, ?_⟩
  intro a ha b hb
  simp only [List.mem_singleton] at hb
  subst hb
  have hkey : child_key b pfx ck = ck.map (fun t => some (dictGet vals t)) :=
    (child_matches_iff_key b pfx vals ck).mp hmatch
  intro hc
  have hma : child_matches a pfx vals ck :=
    (child_matches_iff_key a pfx vals ck).mpr (hc.trans hkey)
  exact pcm_false pfx vals ck cs hfalse a ha hma

lemma find_middle_skip (s : String) (new : XElem) (hnew : new.tag ≠ s) :
    ∀ A B : List XElem,
      List.find? (fun c => c.tag == s) (A ++ new :: B) =
        List.find? (fun c => c.tag == s) (A ++ B) := by
  intro A B
  induction A with
  | nil =>
    have h' : (new.tag == s) = false := by simpa using hnew
    simp only [List.nil_append, List.find?, h']
  | cons c A ih =>
    simp only [List.cons_append, List.find?]
    cases hc : (c.tag == s)
    · exact ih
    · rfl

lemma upsert_find_ne (root : XElem) (t x : String) (i : Option Nat) (s : String)
    (hs : s ≠ t) :
    findChild (pom_add_or_modify_tag root t x i) s = findChild root s := by
  by_cases hex : ∃ c ∈ root.children, c.tag = t
  · obtain ⟨pre, c, post, hcs, hct, hpre⟩ := exists_first_with_tag t root.children hex
    simp only [pom_add_or_modify_tag, hcs,
      set_text_first_found t x pre c post hct hpre, findChild]
    exact (find_middle_ne s pre c ⟨c.tag, c.attrs, some x, c.children⟩ post
      (by rw [hct]; exact fun hc => hs hc.symm)
      (by show c.tag ≠ s; rw [hct]; exact fun hc => hs hc.symm)).symm
  · push_neg at hex
    have hn := set_text_first_none t x root.children (fun c hc => hex c hc)
    simp only [pom_add_or_modify_tag, hn, findChild]
    cases i with
    | none =>
      exact find_append_ne_last s ⟨t, [], some x, []⟩ (fun hc => hs hc.symm) root.children
    | some j =>
      simp only [pyInsert]
      rw [find_middle_skip s ⟨t, [], some x, []⟩ (fun hc => hs hc.symm),
        List.take_append_drop]

lemma collChildren_congr (p q : XElem) (s : String)
    (h : findChild q s = findChild p s) : collChildren q s = collChildren p s := by
  simp only [collChildren, h]

lemma add_sp_deps_walk (pfx : String) :
    ∀ (ls : List String) (p q : XElem), add_sp_deps p pfx ls = .ok q →
      (q.tag = p.tag ∧ q.attrs = p.attrs ∧ q.text = p.text) ∧
      (∀ s, s ≠ pfx ++ "dependencies" → findChild q s = findChild p s) ∧
      (keys_unique (collChildren p (pfx ++ "dependencies")) pfx dep_comparison_keys →
        keys_unique (collChildren q (pfx ++ "dependencies")) pfx dep_comparison_keys) := by
  intro ls
  induction ls with
  | nil =>
    intro p q h
    cases h
    exact ⟨⟨rfl, rfl, rfl⟩, fun s _ => rfl, id⟩
  | cons line rest ih =>
    intro p q h
    simp only [add_sp_deps] at h
    split at h
    · exact ih p q h
    · split at h
      · cases h
      · rename_i dep hval
        split at h
        · cases h
        · rename_i p2 hp2
          obtain ⟨⟨htag, hattrs, htext⟩, hfind, huniq⟩ := ih p2 q h
          obtain ⟨htag2, hattrs2, htext2, hfind2, hdisj⟩ :=
            pom_add_element_spec p p2 pfx ("dependencies") ("dependency")
              (dep_values dep.1 dep.2.1 dep.2.2) dep_comparison_keys dep_key_order hp2
          refine ⟨⟨htag.trans htag2, hattrs.trans hattrs2, htext.trans htext2⟩, ?_, ?_⟩
          · intro s hs
            exact (hfind s hs).trans (hfind2 s hs)
          · intro hu
            refine huniq ?_
            rcases hdisj with ⟨hb, hch⟩ | ⟨hb, hch⟩
            · rw [hch]; exact hu
            · rw [hch, built_child_dep]
              exact keys_unique_append_built _ pfx (dep_values dep.1 dep.2.1 dep.2.2)
                dep_comparison_keys _ (dep_elem_matches pfx dep.1 dep.2.1 dep.2.2) hb hu

lemma scalar3_find_ne (p0 : XElem) (pfx g a ver s : String)
    (h1 : s ≠ pfx ++ "groupId") (h2 : s ≠ pfx ++ "artifactId")
    (h3 : s ≠ pfx ++ "version") :
    findChild (pom_add_or_modify_tag (pom_add_or_modify_tag (pom_add_or_modify_tag p0
        (pfx ++ "groupId") g (some 1)) (pfx ++ "artifactId") a (some 2))
        (pfx ++ "version") ver (some 3)) s =
      findChild p0 s := by
  rw [upsert_find_ne _ _ _ _ _ h3, upsert_find_ne _ _ _ _ _ h2,
    upsert_find_ne _ _ _ _ _ h1]

lemma merge_into_walk (p0 : XElem) (pfx g a ver : String)
    (dl : Option (List String)) (out : XElem)
    (h : merge_into p0 pfx g a ver dl = .ok out) :
    (∃ c ∈ collChildren out (pfx ++ "repositories"),
      child_matches c pfx spark_repo_values ["url"]) ∧
    (keys_unique (collChildren p0 (pfx ++ "dependencies")) pfx dep_comparison_keys →
      keys_unique (collChildren out (pfx ++ "dependencies")) pfx dep_comparison_keys) ∧
    (keys_unique (collChildren p0 (pfx ++ "repositories")) pfx ["url"] →
      keys_unique (collChildren out (pfx ++ "repositories")) pfx ["url"]) := by
  have hdg : pfx ++ "dependencies" ≠ pfx ++ "groupId" := append_ne pfx (by decide)
  have hda : pfx ++ "dependencies" ≠ pfx ++ "artifactId" := append_ne pfx (by decide)
  have hdv : pfx ++ "dependencies" ≠ pfx ++ "version" := append_ne pfx (by decide)
  have hrg : pfx ++ "repositories" ≠ pfx ++ "groupId" := append_ne pfx (by decide)
  have hra : pfx ++ "repositories" ≠ pfx ++ "artifactId" := append_ne pfx (by decide)
  have hrv : pfx ++ "repositories" ≠ pfx ++ "version" := append_ne pfx (by decide)
  have hrd : pfx ++ "repositories" ≠ pfx ++ "dependencies" := append_ne pfx (by decide)
  simp only [merge_into] at h
  split at h
  · cases h
  · rename_i p4 hp4
    split at h
    · cases h
    · rename_i p5 hp5
      cases h
      -- facts about the state p4 after the dependency loop
      have hwalk :
          (∀ s, s ≠ pfx ++ "dependencies" →
            findChild p4 s =
              findChild (pom_add_or_modify_tag (pom_add_or_modify_tag
                (pom_add_or_modify_tag p0 (pfx ++ "groupId") g (some 1))
                (pfx ++ "artifactId") a (some 2)) (pfx ++ "version") ver (some 3)) s) ∧
          (keys_unique (collChildren (pom_add_or_modify_tag (pom_add_or_modify_tag
              (pom_add_or_modify_tag p0 (pfx ++ "groupId") g (some 1))
              (pfx ++ "artifactId") a (some 2)) (pfx ++ "version") ver (some 3))
              (pfx ++ "dependencies")) pfx dep_comparison_keys →
            keys_unique (collChildren p4 (pfx ++ "dependencies")) pfx dep_comparison_keys) := by
        cases dl with
        | none =>
          cases hp4
          exact ⟨fun s _ => rfl, id⟩
        | some ls =>
          obtain ⟨-, hfind, huniq⟩ := add_sp_deps_walk pfx ls _ p4 hp4
          exact ⟨hfind, huniq⟩
      obtain ⟨hfind4, huniq4⟩ := hwalk
      -- dependencies collection of p4 traced back to p0 for the uniqueness transport
      have hdep_scal : collChildren (pom_add_or_modify_tag (pom_add_or_modify_tag
          (pom_add_or_modify_tag p0 (pfx ++ "groupId") g (some 1))
          (pfx ++ "artifactId") a (some 2)) (pfx ++ "version") ver (some 3))
          (pfx ++ "dependencies") = collChildren p0 (pfx ++ "dependencies") :=
        collChildren_congr _ _ _ (scalar3_find_ne p0 pfx g a ver _ hdg hda hdv)
      have hrepo_p4 : collChildren p4 (pfx ++ "repositories") =
          collChildren p0 (pfx ++ "repositories") := by
        refine (collChildren_congr _ _ _ (hfind4 _ hrd)).trans ?_
        exact collChildren_congr _ _ _ (scalar3_find_ne p0 pfx g a ver _ hrg hra hrv)
      obtain ⟨-, -, -, hfind5, hdisj5⟩ :=
        pom_add_element_spec p4 out pfx ("repositories") ("repository")
          spark_repo_values ["url"] repo_key_order hp5
      refine ⟨?_, ?_, ?_⟩
      · rcases hdisj5 with ⟨hb, hch⟩ | ⟨hb, hch⟩
        · rw [hch]
          exact pcm_true pfx spark_repo_values ["url"] _ hb
        · rw [hch, built_child_repo]
          exact ⟨repo_elem pfx, by simp, repo_elem_matches pfx⟩
      · intro hu
        have h5 : collChildren out (pfx ++ "dependencies") =
            collChildren p4 (pfx ++ "dependencies") :=
          collChildren_congr _ _ _ (hfind5 _ hrd.symm)
        rw [h5]
        exact huniq4 (by rw [hdep_scal]; exact hu)
      · intro hu
        rcases hdisj5 with ⟨hb, hch⟩ | ⟨hb, hch⟩
        · rw [hch, hrepo_p4]; exact hu
        · rw [hch, built_child_repo]
          rw [hrepo_p4] at hb ⊢
          exact keys_unique_append_built _ pfx spark_repo_values ["url"] _
            (repo_elem_matches pfx) hb hu

/-! ### C1: collection upsert semantics (corrected) -/

/-- C1 counterexample: the merge completes, does not remove the pre-existing
    duplicate pair, and leaves two `dependencies` entries with the same key
    tuple — so "after every merge no two entries of a repeated-child
    collection share the same key tuple" is false. -/
theorem merge_keeps_preexisting_duplicate_keys :
    (prepare_pom (some c1_dup_pom) "g/a" "1.0" none).map
        (fun out => (collChildren out ("" ++ "dependencies")).map
          (fun c => child_key c ("") dep_comparison_keys)) =
      .ok [[some ("x"), some ("y")], [some ("x"), some ("y")]] ∧
    ¬ keys_unique [dep_elem ("") ("x") ("y") ("1"), dep_elem ("") ("x") ("y") ("2")]
        ("") dep_comparison_keys := by
  constructor
  · rfl
  · intro h
    exact (List.pairwise_cons.mp h).1 (dep_elem ("") ("x") ("y") ("2")) (by simp) rfl

/-- C1 amended: each dependency spec `(g, a, v)` is inserted into the
    `dependencies` collection as a `dependency` child with fields groupId,
    artifactId, version in that key order, skipped when a child with matching
    `(groupId, artifactId)` already exists anywhere in the collection (the
    existing child is left entirely unchanged — first-seen wins); the fixed
    repository entry is unconditionally upserted keyed by url with the same
    semantics, so every successful merge leaves a repository entry with the
    bintray url, and the merge never inserts a key tuple already present:
    collections whose entries start pairwise-distinct stay pairwise-distinct
    (pre-existing duplicates, however, are not removed). -/
theorem dep_repo_upsert_semantics :
    (∀ (coll : XElem) (pfx ch : String) (vals : List (String × String)) (ck ko : List String),
      pom_check_if_child_exists coll pfx vals ck = .ok true →
      pom_add_to_collection coll pfx ch vals ck ko = .ok coll ∧
      ∃ c ∈ coll.children, child_matches c pfx vals ck) ∧
    (∀ (coll : XElem) (pfx : String) (vals : List (String × String)) (ck : List String),
      (∃ c ∈ coll.children, child_matches c pfx vals ck) →
      pom_check_if_child_exists coll pfx vals ck ≠ .ok false) ∧
    (∀ (coll : XElem) (pfx g a v : String),
      pom_check_if_child_exists coll pfx (dep_values g a v) dep_comparison_keys = .ok false →
      pom_add_to_collection coll pfx ("dependency") (dep_values g a v)
          dep_comparison_keys dep_key_order =
        .ok ⟨coll.tag, coll.attrs, coll.text, coll.children ++ [dep_elem pfx g a v]⟩) ∧
    (∀ (existing : Option XElem) (name ver : String) (dl : Option (List String))
        (out root0 : XElem) (pfx : String),
      prepare_pom existing name ver dl = .ok out →
      detect_project_root existing = .ok (root0, pfx) →
      (∃ c ∈ collChildren out (pfx ++ "repositories"),
        child_matches c pfx spark_repo_values ["url"]) ∧
      (keys_unique (collChildren root0 (pfx ++ "dependencies")) pfx dep_comparison_keys →
        keys_unique (collChildren out (pfx ++ "dependencies")) pfx dep_comparison_keys) ∧
      (keys_unique (collChildren root0 (pfx ++ "repositories")) pfx ["url"] →
        keys_unique (collChildren out (pfx ++ "repositories")) pfx ["url"])) := by
  refine ⟨?_, ?_, ?_, ?_⟩
  · intro coll pfx ch vals ck ko htrue
    constructor
    · simp only [pom_add_to_collection, htrue]
    · exact pcm_true pfx vals ck coll.children htrue
  · intro coll pfx vals ck hex hfalse
    obtain ⟨c, hc, hm⟩ := hex
    exact pcm_false pfx vals ck coll.children hfalse c hc hm
  · intro coll pfx g a v hfalse
    simp only [pom_add_to_collection, hfalse, pom_insert_new_child, built_child_dep]
  · intro existing name ver dl out root0 pfx h hdet
    simp only [prepare_pom] at h
    split at h
    · rw [hdet] at h
      exact merge_into_walk root0 pfx _ _ ver dl out h
    · cases h

/-- C1 witness: inserting the spec `(g, a, 1)` into an empty `dependencies`
    collection appends exactly the dependency child with its three fields in
    key order. -/
theorem dep_repo_upsert_semantics_witness :
    pom_add_to_collection ⟨"dependencies", [], none, []⟩ ("") ("dependency")
        (dep_values ("g") ("a") ("1")) dep_comparison_keys dep_key_order =
      .ok ⟨"dependencies", [], none, [dep_elem ("") ("g") ("a") ("1")]⟩ :=
  dep_repo_upsert_semantics.2.2.1 ⟨"dependencies", [], none, []⟩ ("") ("g") ("a") ("1") rfl

/-! ### C3: the scalar upsert and its insertion positions -/

/-- C3 counterexample theorem: inserting `groupId` at position 1 into a root
    with four children puts it second, not last. -/
theorem pom_insert_not_appended :
    (pom_add_or_modify_tag c3_root ("groupId") ("g") (some 1)).children.map XElem.tag =
        ["a", "groupId", "b", "c", "d"] ∧
      (pom_add_or_modify_tag c3_root ("groupId") ("g") (some 1)).children.map XElem.tag ≠
        c3_root.children.map XElem.tag ++ ["groupId"] :=
  ⟨rfl, by decide⟩

/-- C3 amended: `pom_add_or_modify_tag` overwrites only the text of the first
    child with the exact tag when one exists; when absent, it creates the
    child and inserts it with Python `list.insert` semantics — at the given
    position when the position does not exceed the child count, appended
    otherwise (the opposite of the claim's wording) — and `prepare_pom` on a
    fresh document upserts groupId, artifactId, version in that order at
    insert positions 1, 2, 3, yielding the scalar children first. -/
theorem scalar_upsert_positions :
    (∀ (root : XElem) (tag txt : String) (i : Nat),
      (∃ c ∈ root.children, c.tag = tag) →
      ∃ pre c post, root.children = pre ++ c :: post ∧ c.tag = tag ∧
        (∀ x ∈ pre, x.tag ≠ tag) ∧
        pom_add_or_modify_tag root tag txt (some i) =
          ⟨root.tag, root.attrs, root.text,
           pre ++ ⟨c.tag, c.attrs, some txt, c.children⟩ :: post⟩) ∧
    (∀ (root : XElem) (tag txt : String) (i : Nat),
      (∀ c ∈ root.children, c.tag ≠ tag) →
      (pom_add_or_modify_tag root tag txt (some i)).children =
          root.children.take i ++ ⟨tag, [], some txt, []⟩ :: root.children.drop i ∧
      (root.children.length ≤ i →
        (pom_add_or_modify_tag root tag txt (some i)).children =
          root.children ++ [⟨tag, [], some txt, []⟩]) ∧
      (i ≤ root.children.length →
        (pom_add_or_modify_tag root tag txt (some i)).children.take i =
            root.children.take i ∧
          (pom_add_or_modify_tag root tag txt (some i)).children.drop i =
            ⟨tag, [], some txt, []⟩ :: root.children.drop i)) ∧
    (∀ (name ver g a : String) (d : XElem),
      pySplit (pyStrip name) ("/") = [g, a] →
      prepare_pom none name ver none = .ok d →
      d.children.map XElem.tag = ["groupId", "artifactId", "version", "repositories"] ∧
      d.children.map XElem.text = [some g, some a, some ver, none]) := by
  refine ⟨?_, ?_, ?_⟩
  · intro root tag txt i hex
    obtain ⟨pre, c, post, hcs, hct, hpre⟩ := exists_first_with_tag tag root.children hex
    refine ⟨pre, c, post, hcs, hct, hpre, ?_⟩
    simp only [pom_add_or_modify_tag, hcs, set_text_first_found tag txt pre c post hct hpre]
  · intro root tag txt i hnone
    have hn := set_text_first_none tag txt root.children hnone
    simp only [pom_add_or_modify_tag, hn, pyInsert]
    refine ⟨trivial, ?_, ?_⟩
    · intro hle
      rw [List.take_of_length_le hle, List.drop_eq_nil_of_le hle]
    · intro hle
      have hlen : (root.children.take i).length = i := by
        rw [List.length_take]; omega
      exact ⟨List.take_left' hlen, List.drop_left' hlen⟩
  · intro name ver g a d hsplit h
    have hstep : prepare_pom none name ver none =
        merge_into fresh_project_root ("") g a ver none := by
      simp only [prepare_pom, hsplit, detect_project_root]
    rw [hstep] at h
    have h2 : (Except.ok (⟨"project", pom_attributes, none,
        [⟨"groupId", [], some g, []⟩, ⟨"artifactId", [], some a, []⟩,
         ⟨"version", [], some ver, []⟩,
         ⟨"repositories", [], none,
          [⟨"repository", [], none,
            [⟨"id", [], some ("SparkPackagesRepo"), []⟩,
             ⟨"name", [], some ("Spark Packages Repository"), []⟩,
             ⟨"url", [], some ("http://dl.bintray.com/spark-packages/maven/"), []⟩,
             ⟨"layout", [], some ("default"), []⟩]⟩]⟩]⟩ : XElem) : Except PyError XElem) =
        .ok d := h
    cases h2
    exact ⟨rfl, rfl⟩

/-- C3 witness: on the four-child root, upserting a missing `version` child
    at position 5 appends it, and the existing-child case only replaces the
    text. -/
theorem scalar_upsert_positions_witness :
    (pom_add_or_modify_tag c3_root ("version") ("9") (some 5)).children =
      c3_root.children ++ [⟨"version", [], some ("9"), []⟩] :=
  ((scalar_upsert_positions.2.1 c3_root ("version") ("9") 5 (by decide)).2.1 (by decide))

/-! ### C8: crash of the duplicate check on a child lacking a key tag -/

/-- C8: `pom_check_if_child_exists` dereferences the `None` returned by the
    lookup of the missing key element, so the duplicate check raises
    `AttributeError` and the merge of a dependency spec into `c8_pom` crashes
    instead of producing a document or a clean fatal message. -/
theorem pom_check_crashes_on_missing_key :
    pom_check_if_child_exists ⟨"dependencies", [], none, [⟨"dependency", [], none, []⟩]⟩
        ("") (dep_values ("x") ("y") ("1")) dep_comparison_keys = .error () ∧
      prepare_pom (some c8_pom) "g/a" "1.0" (some ["x/y==1"]) = .error .attributeError :=
  ⟨rfl, rfl⟩

/-! ### C10: the license index sent by publish_release -/

lemma get_license_id_bounds : ∀ (inputs : List Int) (v : Int),
    get_license_id inputs = some v → 1 ≤ v ∧ v ≤ (licenses.length : Int) := by
  intro inputs
  induction inputs with
  | nil => intro v h; simp [get_license_id] at h
  | cons x xs ih =>
    intro v h
    simp only [get_license_id] at h
    split at h
    · exact ih v h
    · rename_i hrange
      cases h
      push_neg at hrange
      omega

/-- C10: the `license_id` form field submitted by `publish_release` is the
    interactively selected one-based index minus one, hence always between 0
    and `licenses.length - 1` on the wire, and exactly one less than the index
    `init` uses for license-file creation. -/
theorem publish_license_field_zero_based (inputs : List Int) (v : Int)
    (h : publish_license_field inputs = some v) :
    0 ≤ v ∧ v ≤ (licenses.length : Int) - 1 ∧ init_license_index inputs = some (v + 1) := by
  simp only [publish_license_field, Option.map_eq_some'] at h
  obtain ⟨w, hw, hv⟩ := h
  have hb := get_license_id_bounds inputs w hw
  refine ⟨by omega, by omega, ?_⟩
  simp only [init_license_index, hw]
  congr 1
  omega

/-- C10 witness: with interactive inputs 0 (rejected), 15 (rejected), 3
    (accepted), the wire value is 2 and init would use 3. -/
theorem publish_license_field_zero_based_witness :
    (0 : Int) ≤ 2 ∧ (2 : Int) ≤ (licenses.length : Int) - 1 ∧
      init_license_index [0, 15, 3] = some (2 + 1) :=
  publish_license_field_zero_based [0, 15, 3] 2 rfl

/-! ### C5: name validation (corrected) -/

/-- C5 counterexample: the claim says a name with an empty segment is
    rejected, but the regular expression of `validate_name` uses `*`, so the
    code accepts `"a/"` whose second segment is empty and fails the spec's
    pattern `[A-Za-z0-9\-_]+`. -/
theorem validate_name_accepts_empty_segment :
    validate_name (some ("a/")) = .ok () ∧
      pySplit ("a/") ("/") = ["a", ""] ∧
      spec_segment_ok ("") = false :=
  ⟨rfl, rfl, rfl⟩

/-- C5 amended: `validate_name` accepts a name iff it is non-blank after
    stripping, splits on `/` into exactly two segments, and every segment
    matches Python's `^[a-zA-Z0-9-_]*$` (segments may be empty, and `$`
    tolerates one trailing newline); and any name-validation failure is
    reported by `main` before the per-action required-flag checks run. -/
theorem validate_name_accepts_iff :
    (∀ n : String,
      validate_name (some n) = .ok () ↔
        ((pyStrip n).data ≠ [] ∧ (pySplit n ("/")).length = 2 ∧
          ∀ f ∈ pySplit n ("/"), py_name_re_match f)) ∧
    (∀ (e : PyError) (opts : CmdOptions) (action : String),
      validate_name opts.name = .error e → main_validate [action] opts = .error e) := by
  constructor
  · intro n
    simp only [validate_name]
    split
    · rename_i hlen
      constructor
      · intro h; cases h
      · rintro ⟨hne, -, -⟩
        exact absurd (List.length_eq_zero.mp hlen) hne
    · rename_i hlen
      split
      · rename_i h2
        constructor
        · intro h; cases h
        · rintro ⟨-, h2', -⟩; exact absurd h2' h2
      · rename_i h2
        split
        · rename_i hall
          simp only [List.all_eq_true] at hall
          exact ⟨fun _ => ⟨fun hc => (hlen (List.length_eq_zero.mpr hc)).elim, by omega, hall⟩,
                 fun _ => rfl⟩
        · rename_i hall
          simp only [List.all_eq_true] at hall
          constructor
          · intro h; cases h
          · rintro ⟨-, -, h3⟩; exact absurd h3 hall
  · intro e opts action h
    simp only [main_validate, h]

/-- C5 witness: a name with a space is rejected by `validate_name`, and
    `main` reports that failure for the `zip` action even though the required
    version flag is also missing. -/
theorem validate_name_accepts_iff_witness :
    main_validate ["zip"] ⟨some ("a b/c"), none, true, true⟩ = .error (.fatal bad_chars_msg) :=
  validate_name_accepts_iff.2 (.fatal bad_chars_msg) ⟨some ("a b/c"), none, true, true⟩ ("zip") rfl

/-! ### C4: prefix detection -/

lemma findSub_some : ∀ (l : List Char) (pat : List Char) (i : Nat),
    findSub pat l = some i →
      pat.isPrefixOf (l.drop i) = true ∧
      ∀ j < i, pat.isPrefixOf (l.drop j) = false := by
  intro l
  induction l with
  | nil =>
    intro pat i h
    simp only [findSub] at h
    split at h
    · rename_i hp
      cases h
      exact ⟨hp, by omega⟩
    · cases h
  | cons c cs ih =>
    intro pat i h
    simp only [findSub] at h
    split at h
    · rename_i hp
      cases h
      exact ⟨hp, by omega⟩
    · rename_i hp
      simp only [Option.map_eq_some'] at h
      obtain ⟨i', hi', rfl⟩ := h
      obtain ⟨h1, h2⟩ := ih pat i' hi'
      refine ⟨h1, ?_⟩
      intro j hj
      cases j with
      | zero => simpa using Bool.eq_false_iff.mpr hp
      | succ j' => exact h2 j' (by omega)

/-- C4: with an existing pom, the element-name prefix is exactly the part of
    the root tag preceding the first occurrence of the literal substring
    `project` (`detect_project_root` slices the tag there, and no earlier
    position starts that substring); when the root tag does not contain
    `project`, the merge fails fatally on the assert; with no existing pom, a
    fresh `project` root carrying the Maven namespace, XML-Schema-instance and
    schema-location attributes is used with empty prefix. -/
theorem prepare_pom_prefix_detection :
    (∀ (root : XElem) (i : Nat), pyFind root.tag ("project") = some i →
      detect_project_root (some root) = .ok (root, pyTake root.tag i) ∧
      (∃ rest, root.tag.data = (pyTake root.tag i).data ++ ("project").data ++ rest) ∧
      (∀ j < i, ("project").data.isPrefixOf (root.tag.data.drop j) = false)) ∧
    (∀ (root : XElem) (name ver : String) (deps : Option (List String)) (g a : String),
      pyFind root.tag ("project") = none →
      pySplit (pyStrip name) ("/") = [g, a] →
      prepare_pom (some root) name ver deps =
        .error (.assertFailed
          ("The root node of the pom file should be <project>, not: " ++ root.tag))) ∧
    detect_project_root none = .ok (⟨"project", pom_attributes, none, []⟩, "") := by
  refine ⟨?_, ?_, rfl⟩
  · intro root i h
    obtain ⟨h1, h2⟩ := findSub_some root.tag.data ("project").data i h
    refine ⟨?_, ?_, h2⟩
    · simp only [detect_project_root, h]
    · rw [List.isPrefixOf_iff_prefix] at h1
      obtain ⟨rest, hrest⟩ := h1
      refine ⟨rest, ?_⟩
      conv_lhs => rw [← List.take_append_drop i root.tag.data]
      rw [← hrest, pyTake, List.append_assoc]
  · intro root name ver deps g a h hsplit
    simp only [prepare_pom, hsplit, detect_project_root, h]

/-- C4 witness: a namespaced root tag `m:project` yields prefix `m:`; a root
    tag without `project` makes the merge fail on the assert. -/
theorem prepare_pom_prefix_detection_witness :
    detect_project_root (some ⟨"m:project", [], none, []⟩) =
        .ok (⟨"m:project", [], none, []⟩, pyTake ("m:project") 2) ∧
      prepare_pom (some ⟨"foo", [], none, []⟩) "g/a" "1.0" none =
        .error (.assertFailed
          ("The root node of the pom file should be <project>, not: " ++ "foo")) :=
  ⟨(prepare_pom_prefix_detection.1 ⟨"m:project", [], none, []⟩ 2 rfl).1,
   prepare_pom_prefix_detection.2.1 ⟨"foo", [], none, []⟩ "g/a" "1.0" none "g" "a" rfl rfl⟩

/-! ### Equivariance of the merge under the re-parse tag expansion -/

lemma map_tags_tag (f : String → String) (e : XElem) : (map_tags f e).tag = f e.tag := by
  cases e; rfl

lemma map_tags_attrs (f : String → String) (e : XElem) : (map_tags f e).attrs = e.attrs := by
  cases e; rfl

lemma map_tags_text (f : String → String) (e : XElem) : (map_tags f e).text = e.text := by
  cases e; rfl

lemma map_tags_children (f : String → String) (e : XElem) :
    (map_tags f e).children = map_tags_list f e.children := by
  cases e; rfl

lemma map_tags_list_map (f : String → String) :
    ∀ cs : List XElem, map_tags_list f cs = cs.map (map_tags f) := by
  intro cs
  induction cs with
  | nil => rfl
  | cons c cs ih => simp only [map_tags_list, ih, List.map_cons]

lemma nsb_append (a b : String) : nsb_tag a ++ b = nsb_tag (a ++ b) := by
  simp [nsb_tag, String.append_assoc]

lemma nsb_beq (a b : String) : (nsb_tag a == nsb_tag b) = (a == b) :=
  tag_beq_append ns_brace a b

lemma find_map_nsb (t : String) :
    ∀ cs : List XElem,
      List.find? (fun c => c.tag == nsb_tag t) (cs.map (map_tags nsb_tag)) =
        (List.find? (fun c => c.tag == t) cs).map (map_tags nsb_tag) := by
  intro cs
  induction cs with
  | nil => rfl
  | cons c cs ih =>
    simp only [List.map_cons, List.find?]
    rw [map_tags_tag, nsb_beq]
    cases hc : (c.tag == t)
    · exact ih
    · rfl

lemma findChild_map_nsb (e : XElem) (t : String) :
    findChild (map_tags nsb_tag e) (nsb_tag t) =
      (findChild e t).map (map_tags nsb_tag) := by
  simp only [findChild, map_tags_children, map_tags_list_map]
  exact find_map_nsb t e.children

lemma set_text_map_nsb (t x : String) :
    ∀ cs : List XElem,
      set_text_first (nsb_tag t) x (cs.map (map_tags nsb_tag)) =
        (set_text_first t x cs).map (fun l => l.map (map_tags nsb_tag)) := by
  intro cs
  induction cs with
  | nil => rfl
  | cons c cs ih =>
    simp only [List.map_cons, set_text_first]
    rw [map_tags_tag, nsb_beq]
    cases hc : (c.tag == t)
    · simp only [cond_false, Bool.false_eq_true, if_false, ih]
      cases set_text_first t x cs
      · rfl
      · rfl
    · cases c
      simp [map_tags, map_tags_list_map]

lemma upsert_map_nsb (root : XElem) (t x : String) (i : Option Nat) :
    pom_add_or_modify_tag (map_tags nsb_tag root) (nsb_tag t) x i =
      map_tags nsb_tag (pom_add_or_modify_tag root t x i) := by
  cases root with
  | mk t0 a0 x0 cs0 =>
    simp only [map_tags, pom_add_or_modify_tag, map_tags_list_map, set_text_map_nsb]
    cases hs : set_text_first t x cs0 with
    | some cs2 =>
      simp only [Option.map_some', map_tags, map_tags_list_map]
    | none =>
      cases i with
      | none =>
        simp only [Option.map_none', map_tags, map_tags_list_map, List.map_append,
          List.map_cons, List.map_nil, map_tags_list]
      | some j =>
        simp only [Option.map_none', pyInsert, map_tags, map_tags_list_map,
          List.map_append, List.map_cons, List.map_nil, List.map_take,
          List.map_drop, map_tags_list]

lemma count_map_nsb (c : XElem) (pfx : String) (vals : List (String × String)) :
    ∀ ts : List String,
      count_tag_matches (map_tags nsb_tag c) (nsb_tag pfx) vals ts =
        count_tag_matches c pfx vals ts := by
  intro ts
  induction ts with
  | nil => rfl
  | cons t ts ih =>
    simp only [count_tag_matches, nsb_append, findChild_map_nsb]
    cases hf : findChild c (pfx ++ t) with
    | none => rfl
    | some k =>
      simp only [Option.map_some', map_tags_text, ih]

lemma pcm_map_nsb (pfx : String) (vals : List (String × String)) (ts : List String) :
    ∀ cs : List XElem,
      pom_children_match (nsb_tag pfx) vals ts (cs.map (map_tags nsb_tag)) =
        pom_children_match pfx vals ts cs := by
  intro cs
  induction cs with
  | nil => rfl
  | cons c cs ih =>
    simp only [List.map_cons, pom_children_match, count_map_nsb, ih]

lemma built_map_nsb (pfx ch : String) (vals : List (String × String))
    (ko : List String) :
    built_child (nsb_tag pfx) ch vals ko =
      map_tags nsb_tag (built_child pfx ch vals ko) := by
  simp only [built_child]
  have hbase : (⟨nsb_tag pfx ++ ch, [], none, []⟩ : XElem) =
      map_tags nsb_tag ⟨pfx ++ ch, [], none, []⟩ := by
    rw [nsb_append]; rfl
  rw [hbase]
  generalize (⟨pfx ++ ch, [], none, []⟩ : XElem) = d
  generalize sort_by_key_order ko vals = items
  induction items generalizing d with
  | nil => rfl
  | cons kv items ih =>
    simp only [List.foldl, nsb_append, upsert_map_nsb]
    exact ih _

lemma add_to_coll_map_nsb (coll : XElem) (pfx ch : String)
    (vals : List (String × String)) (ck ko : List String) :
    pom_add_to_collection (map_tags nsb_tag coll) (nsb_tag pfx) ch vals ck ko =
      (pom_add_to_collection coll pfx ch vals ck ko).map (map_tags nsb_tag) := by
  simp only [pom_add_to_collection, pom_check_if_child_exists, map_tags_children,
    map_tags_list_map, pcm_map_nsb]
  cases hb : pom_children_match pfx vals ck coll.children with
  | error e => rfl
  | ok b =>
    cases b
    · simp only [Except.map]
      cases coll
      simp only [pom_insert_new_child, map_tags, map_tags_list_map, built_map_nsb,
        List.map_append, List.map_cons, List.map_nil]
    · rfl

lemma replace_map_nsb (t : String) (f g : XElem → Except Unit XElem)
    (hfg : ∀ c, f (map_tags nsb_tag c) = (g c).map (map_tags nsb_tag)) :
    ∀ cs : List XElem,
      replace_first_by_tag (nsb_tag t) f (cs.map (map_tags nsb_tag)) =
        (replace_first_by_tag t g cs).map
          (fun r => r.map (fun l => l.map (map_tags nsb_tag))) := by
  intro cs
  induction cs with
  | nil => rfl
  | cons c cs ih =>
    simp only [List.map_cons, replace_first_by_tag, map_tags_tag, nsb_beq]
    cases hc : (c.tag == t)
    · simp only [Bool.false_eq_true, if_false, ih]
      cases hr : replace_first_by_tag t g cs with
      | none => rfl
      | some r =>
        cases r with
        | error e => rfl
        | ok cs2 => rfl
    · simp only [if_true, hfg c]
      cases hg : g c with
      | error e => rfl
      | ok c2 => rfl

lemma pom_add_element_map_nsb (root : XElem) (pfx par ch : String)
    (vals : List (String × String)) (ck ko : List String) :
    pom_add_element (map_tags nsb_tag root) (nsb_tag pfx) par ch vals ck ko =
      (pom_add_element root pfx par ch vals ck ko).map (map_tags nsb_tag) := by
  simp only [pom_add_element, map_tags_children, map_tags_list_map, nsb_append]
  rw [replace_map_nsb (pfx ++ par)
    (fun c => pom_add_to_collection c (nsb_tag pfx) ch vals ck ko)
    (fun c => pom_add_to_collection c pfx ch vals ck ko)
    (fun c => add_to_coll_map_nsb c pfx ch vals ck ko)]
  cases hr : replace_first_by_tag (pfx ++ par)
      (fun c => pom_add_to_collection c pfx ch vals ck ko) root.children with
  | none =>
    simp only [Option.map_none']
    have hfresh : (⟨nsb_tag (pfx ++ par), [], none, []⟩ : XElem) =
        map_tags nsb_tag ⟨pfx ++ par, [], none, []⟩ := rfl
    rw [hfresh, add_to_coll_map_nsb]
    cases hf : pom_add_to_collection ⟨pfx ++ par, [], none, []⟩ pfx ch vals ck ko with
    | error e => rfl
    | ok c =>
      simp only [Except.map]
      cases root
      simp only [map_tags, map_tags_list_map, List.map_append, List.map_cons,
        List.map_nil]
  | some r =>
    cases r with
    | error e => rfl
    | ok cs2 =>
      simp only [Option.map_some', Except.map]
      cases root
      simp only [map_tags, map_tags_list_map]

lemma add_sp_deps_map_nsb (pfx : String) :
    ∀ (ls : List String) (p : XElem),
      add_sp_deps (map_tags nsb_tag p) (nsb_tag pfx) ls =
        (add_sp_deps p pfx ls).map (map_tags nsb_tag) := by
  intro ls
  induction ls with
  | nil => intro p; rfl
  | cons line rest ih =>
    intro p
    simp only [add_sp_deps]
    cases hs : pyStartswith (pyStrip line) ("#")
    · simp only [Bool.false_eq_true, if_false]
      cases hv : validate_and_return_sp_dep (pyStrip line) with
      | error e => rfl
      | ok dep =>
        simp only [pom_add_element_map_nsb]
        cases he : pom_add_element p pfx ("dependencies") ("dependency")
            (dep_values dep.1 dep.2.1 dep.2.2) dep_comparison_keys dep_key_order with
        | error e => rfl
        | ok p2 => exact ih p2
    · simp only [if_true]
      exact ih p

lemma merge_into_map_nsb (p : XElem) (pfx g a ver : String)
    (dl : Option (List String)) :
    merge_into (map_tags nsb_tag p) (nsb_tag pfx) g a ver dl =
      (merge_into p pfx g a ver dl).map (map_tags nsb_tag) := by
  cases dl with
  | none =>
    simp only [merge_into, nsb_append, upsert_map_nsb, pom_add_element_map_nsb]
    cases hp5 : pom_add_element (pom_add_or_modify_tag (pom_add_or_modify_tag
        (pom_add_or_modify_tag p (pfx ++ "groupId") g (some 1))
        (pfx ++ "artifactId") a (some 2)) (pfx ++ "version") ver (some 3)) pfx
        ("repositories") ("repository") spark_repo_values ["url"] repo_key_order with
    | error e => rfl
    | ok p5 => rfl
  | some lines =>
    simp only [merge_into, nsb_append, upsert_map_nsb, add_sp_deps_map_nsb]
    cases hp4 : add_sp_deps (pom_add_or_modify_tag (pom_add_or_modify_tag
        (pom_add_or_modify_tag p (pfx ++ "groupId") g (some 1))
        (pfx ++ "artifactId") a (some 2)) (pfx ++ "version") ver (some 3)) pfx lines with
    | error e => rfl
    | ok p4 =>
      simp only [Except.map, pom_add_element_map_nsb]
      cases hp5 : pom_add_element p4 pfx ("repositories") ("repository")
          spark_repo_values ["url"] repo_key_order with
      | error e => rfl
      | ok p5 => rfl

/-! ### Fixpoint of the merge on its own output -/

lemma find_tag_decomp (t : String) :
    ∀ (cs : List XElem) (c : XElem),
      List.find? (fun x => x.tag == t) cs = some c →
      ∃ pre post, cs = pre ++ c :: post ∧ c.tag = t ∧ ∀ x ∈ pre, x.tag ≠ t := by
  intro cs
  induction cs with
  | nil => intro c h; cases h
  | cons c0 cs ih =>
    intro c h
    simp only [List.find?] at h
    cases hc : (c0.tag == t) with
    | true =>
      rw [hc] at h
      cases h
      exact ⟨[], cs, rfl, by simpa using hc, by simp⟩
    | false =>
      rw [hc] at h
      obtain ⟨pre, post, hcs, hct, hpre⟩ := ih c h
      refine ⟨c0 :: pre, post, by simp [hcs], hct, ?_⟩
      intro x hx
      rcases List.mem_cons.mp hx with rfl | hx'
      · simpa using hc
      · exact hpre x hx'

lemma upsert_tag_attrs_text (root : XElem) (t x : String) (i : Option Nat) :
    (pom_add_or_modify_tag root t x i).tag = root.tag ∧
    (pom_add_or_modify_tag root t x i).attrs = root.attrs ∧
    (pom_add_or_modify_tag root t x i).text = root.text := by
  simp only [pom_add_or_modify_tag]
  cases set_text_first t x root.children
  · cases i <;> exact ⟨rfl, rfl, rfl⟩
  · exact ⟨rfl, rfl, rfl⟩

lemma upsert_id_of_text (root : XElem) (t x : String) (i : Option Nat) (c : XElem)
    (hf : findChild root t = some c) (hx : c.text = some x) :
    pom_add_or_modify_tag root t x i = root := by
  obtain ⟨rt, ra, rx, rc⟩ := root
  obtain ⟨pre, post, hcs, hct, hpre⟩ := find_tag_decomp t rc c hf
  have hself : (⟨c.tag, c.attrs, some x, c.children⟩ : XElem) = c := by
    obtain ⟨ct, ca, cx, cc⟩ := c
    cases hx
    rfl
  simp only [pom_add_or_modify_tag, hcs,
    set_text_first_found t x pre c post hct hpre, hself]

lemma replace_first_found (t : String) (f : XElem → Except Unit XElem) :
    ∀ (pre : List XElem) (c : XElem) (post : List XElem), c.tag = t →
      (∀ x ∈ pre, x.tag ≠ t) →
      replace_first_by_tag t f (pre ++ c :: post) =
        some (match f c with
          | .error e => .error e
          | .ok c2 => .ok (pre ++ c2 :: post)) := by
  intro pre
  induction pre with
  | nil =>
    intro c post hct _
    simp only [List.nil_append, replace_first_by_tag]
    rw [if_pos (by simpa using hct)]
  | cons x0 pre ih =>
    intro c post hct hpre
    have hx : (x0.tag == t) = false := by simpa using hpre x0 (by simp)
    simp only [List.cons_append, replace_first_by_tag, hx, Bool.false_eq_true, if_false,
      List.append_eq]
    rw [ih c post hct (fun y hy => hpre y (by simp [hy]))]
    cases f c with
    | error e => rfl
    | ok c2 => rfl

lemma pom_add_element_skip (root coll : XElem) (pfx par ch : String)
    (vals : List (String × String)) (ck ko : List String)
    (hf : findChild root (pfx ++ par) = some coll)
    (ht : pom_children_match pfx vals ck coll.children = .ok true) :
    pom_add_element root pfx par ch vals ck ko = .ok root := by
  obtain ⟨rt, ra, rx, rc⟩ := root
  obtain ⟨pre, post, hcs, hct, hpre⟩ := find_tag_decomp (pfx ++ par) rc coll hf
  have hskip : pom_add_to_collection coll pfx ch vals ck ko = .ok coll := by
    simp only [pom_add_to_collection, pom_check_if_child_exists, ht]
  simp only [pom_add_element, hcs,
    replace_first_found (pfx ++ par) _ pre coll post hct hpre, hskip]

lemma count_of_matches (c : XElem) (pfx : String) (vals : List (String × String)) :
    ∀ ts : List String, child_matches c pfx vals ts →
      count_tag_matches c pfx vals ts = .ok ts.length := by
  intro ts
  induction ts with
  | nil => intro _; rfl
  | cons t ts ih =>
    intro h
    obtain ⟨k, hk, htext⟩ := h t (by simp)
    simp only [count_tag_matches, hk, ih (fun t' ht' => h t' (by simp [ht'])),
      htext, if_pos, List.length_cons]

lemma pcm_post (pfx : String) (vals : List (String × String)) (ck : List String)
    (cs : List XElem) (x : XElem)
    (hm : child_matches x pfx vals ck)
    (hf : pom_children_match pfx vals ck cs = .ok false) :
    pom_children_match pfx vals ck (cs ++ [x]) = .ok true := by
  rw [pcm_append, hf]
  simp only [pom_children_match, count_of_matches x pfx vals ck hm, if_pos]

lemma pom_add_element_post (root root2 : XElem) (pfx par ch : String)
    (vals : List (String × String)) (ck ko : List String)
    (h : pom_add_element root pfx par ch vals ck ko = .ok root2)
    (hm : child_matches (built_child pfx ch vals ko) pfx vals ck) :
    pom_children_match pfx vals ck (collChildren root2 (pfx ++ par)) = .ok true := by
  obtain ⟨-, -, -, -, hdisj⟩ := pom_add_element_spec root root2 pfx par ch vals ck ko h
  rcases hdisj with ⟨hb, hch⟩ | ⟨hb, hch⟩
  · rw [hch]; exact hb
  · rw [hch]
    exact pcm_post pfx vals ck _ _ hm hb

lemma pcm_coll_true_find (root : XElem) (T pfx : String)
    (vals : List (String × String)) (ck : List String)
    (h : pom_children_match pfx vals ck (collChildren root T) = .ok true) :
    ∃ coll, findChild root T = some coll ∧
      pom_children_match pfx vals ck coll.children = .ok true := by
  cases hf : findChild root T with
  | none =>
    rw [collChildren, hf] at h
    cases h
  | some coll =>
    rw [collChildren, hf] at h
    exact ⟨coll, rfl, h⟩

lemma add_sp_deps_pcm_persist (pfx : String) (vals : List (String × String))
    (ck : List String) :
    ∀ (ls : List String) (p q : XElem), add_sp_deps p pfx ls = .ok q →
      pom_children_match pfx vals ck (collChildren p (pfx ++ "dependencies")) = .ok true →
      pom_children_match pfx vals ck (collChildren q (pfx ++ "dependencies")) = .ok true := by
  intro ls
  induction ls with
  | nil =>
    intro p q h ht
    cases h
    exact ht
  | cons line rest ih =>
    intro p q h ht
    simp only [add_sp_deps] at h
    split at h
    · exact ih p q h ht
    · split at h
      · cases h
      · rename_i dep hval
        split at h
        · cases h
        · rename_i p2 hp2
          refine ih p2 q h ?_
          obtain ⟨-, -, -, -, hdisj⟩ := pom_add_element_spec p p2 pfx ("dependencies")
            ("dependency") (dep_values dep.1 dep.2.1 dep.2.2) dep_comparison_keys
            dep_key_order hp2
          rcases hdisj with ⟨hb, hch⟩ | ⟨hb, hch⟩
          · rw [hch]; exact ht
          · rw [hch, pcm_append, ht]

lemma built_dep_matches (pfx g a v : String) :
    child_matches (built_child pfx ("dependency") (dep_values g a v) dep_key_order)
      pfx (dep_values g a v) dep_comparison_keys := by
  rw [built_child_dep]
  exact dep_elem_matches pfx g a v

lemma built_repo_matches (pfx : String) :
    child_matches (built_child pfx ("repository") spark_repo_values repo_key_order)
      pfx spark_repo_values ["url"] := by
  rw [built_child_repo]
  exact repo_elem_matches pfx

lemma add_sp_deps_checks_true (pfx : String) :
    ∀ (ls : List String) (p q : XElem), add_sp_deps p pfx ls = .ok q →
      ∀ line ∈ ls, pyStartswith (pyStrip line) ("#") = false →
      ∃ dep, validate_and_return_sp_dep (pyStrip line) = .ok dep ∧
        pom_children_match pfx (dep_values dep.1 dep.2.1 dep.2.2) dep_comparison_keys
          (collChildren q (pfx ++ "dependencies")) = .ok true := by
  intro ls
  induction ls with
  | nil => intro p q h line hmem; cases hmem
  | cons line0 rest ih =>
    intro p q h line hmem hhash
    simp only [add_sp_deps] at h
    split at h
    · rename_i hsh
      rcases List.mem_cons.mp hmem with rfl | hmem'
      · rw [hsh] at hhash; cases hhash
      · exact ih p q h line hmem' hhash
    · split at h
      · cases h
      · rename_i dep0 hval
        split at h
        · cases h
        · rename_i p2 hp2
          rcases List.mem_cons.mp hmem with rfl | hmem'
          · refine ⟨dep0, hval, ?_⟩
            refine add_sp_deps_pcm_persist pfx _ _ rest p2 q h ?_
            exact pom_add_element_post p p2 pfx ("dependencies") ("dependency") _
              dep_comparison_keys dep_key_order hp2
              (built_dep_matches pfx dep0.1 dep0.2.1 dep0.2.2)
          · exact ih p2 q h line hmem' hhash

lemma add_sp_deps_fixpoint (pfx : String) :
    ∀ (ls : List String) (p : XElem),
      (∀ line ∈ ls, pyStartswith (pyStrip line) ("#") = false →
        ∃ dep, validate_and_return_sp_dep (pyStrip line) = .ok dep ∧
          pom_children_match pfx (dep_values dep.1 dep.2.1 dep.2.2) dep_comparison_keys
            (collChildren p (pfx ++ "dependencies")) = .ok true) →
      add_sp_deps p pfx ls = .ok p := by
  intro ls
  induction ls with
  | nil => intro p _; rfl
  | cons line0 rest ih =>
    intro p hfacts
    simp only [add_sp_deps]
    cases hsh : pyStartswith (pyStrip line0) ("#")
    · simp only [Bool.false_eq_true, if_false]
      obtain ⟨dep0, hval, htrue⟩ := hfacts line0 (by simp) hsh
      simp only [hval]
      obtain ⟨coll, hfcoll, htc⟩ := pcm_coll_true_find p (pfx ++ "dependencies") pfx
        (dep_values dep0.1 dep0.2.1 dep0.2.2) dep_comparison_keys htrue
      rw [pom_add_element_skip p coll pfx ("dependencies") ("dependency")
        (dep_values dep0.1 dep0.2.1 dep0.2.2) dep_comparison_keys dep_key_order
        hfcoll htc]
      exact ih p (fun line hl hh => hfacts line (by simp [hl]) hh)
    · simp only [if_true]
      exact ih p (fun line hl hh => hfacts line (by simp [hl]) hh)

lemma merge_into_root_tag (p : XElem) (pfx g a ver : String)
    (dl : Option (List String)) (out : XElem)
    (h : merge_into p pfx g a ver dl = .ok out) : out.tag = p.tag := by
  simp only [merge_into] at h
  split at h
  · cases h
  · rename_i p4 hp4
    split at h
    · cases h
    · rename_i p5 hp5
      cases h
      obtain ⟨ht5, -, -, -, -⟩ :=
        pom_add_element_spec p4 out pfx ("repositories") ("repository")
          spark_repo_values ["url"] repo_key_order hp5
      have ht4 : p4.tag = p.tag := by
        cases dl with
        | none =>
          cases hp4
          rw [(upsert_tag_attrs_text _ _ _ _).1, (upsert_tag_attrs_text _ _ _ _).1,
            (upsert_tag_attrs_text _ _ _ _).1]
        | some ls =>
          obtain ⟨⟨htw, -, -⟩, -, -⟩ := add_sp_deps_walk pfx ls _ p4 hp4
          rw [htw, (upsert_tag_attrs_text _ _ _ _).1, (upsert_tag_attrs_text _ _ _ _).1,
            (upsert_tag_attrs_text _ _ _ _).1]
      exact ht5.trans ht4

lemma collChildren_map_nsb (d : XElem) (T : String) :
    collChildren (map_tags nsb_tag d) (nsb_tag T) =
      (collChildren d T).map (map_tags nsb_tag) := by
  simp only [collChildren, findChild_map_nsb]
  cases findChild d T with
  | none => rfl
  | some c =>
    simp only [Option.map_some', Option.getD_some, map_tags_children,
      map_tags_list_map]

lemma merge_scalar_finds (g a ver : String) (dl : Option (List String)) (d1 : XElem)
    (h : merge_into fresh_project_root ("") g a ver dl = .ok d1) :
    findChild d1 ("groupId") = some ⟨"groupId", [], some g, []⟩ ∧
    findChild d1 ("artifactId") = some ⟨"artifactId", [], some a, []⟩ ∧
    findChild d1 ("version") = some ⟨"version", [], some ver, []⟩ := by
  have hgd : ("groupId" : String) ≠ "" ++ "dependencies" := by decide
  have had : ("artifactId" : String) ≠ "" ++ "dependencies" := by decide
  have hvd : ("version" : String) ≠ "" ++ "dependencies" := by decide
  have hgr : ("groupId" : String) ≠ "" ++ "repositories" := by decide
  have har : ("artifactId" : String) ≠ "" ++ "repositories" := by decide
  have hvr : ("version" : String) ≠ "" ++ "repositories" := by decide
  simp only [merge_into] at h
  split at h
  · cases h
  · rename_i p4 hp4
    split at h
    · cases h
    · rename_i p5 hp5
      cases h
      have hfind4 : ∀ s, s ≠ ("" : String) ++ "dependencies" → findChild p4 s =
          findChild (pom_add_or_modify_tag (pom_add_or_modify_tag (pom_add_or_modify_tag
            fresh_project_root ("" ++ "groupId") g (some 1)) ("" ++ "artifactId") a
            (some 2)) ("" ++ "version") ver (some 3)) s := by
        cases dl with
        | none => cases hp4; exact fun s _ => rfl
        | some ls => exact (add_sp_deps_walk ("") ls _ p4 hp4).2.1
      have hfind5 : ∀ s, s ≠ ("" : String) ++ "repositories" →
          findChild d1 s = findChild p4 s :=
        (pom_add_element_spec p4 d1 ("") ("repositories") ("repository")
          spark_repo_values ["url"] repo_key_order hp5).2.2.2.1
      refine ⟨?_, ?_, ?_⟩
      · exact ((hfind5 _ hgr).trans (hfind4 _ hgd)).trans rfl
      · exact ((hfind5 _ har).trans (hfind4 _ had)).trans rfl
      · exact ((hfind5 _ hvr).trans (hfind4 _ hvd)).trans rfl

lemma merge_into_fixpoint (g a ver : String) (dl : Option (List String)) (d1 : XElem)
    (h : merge_into fresh_project_root ("") g a ver dl = .ok d1) :
    merge_into d1 ("") g a ver dl = .ok d1 := by
  obtain ⟨hfg, hfa, hfv⟩ := merge_scalar_finds g a ver dl d1 h
  have e1 : pom_add_or_modify_tag d1 ("" ++ "groupId") g (some 1) = d1 :=
    upsert_id_of_text d1 _ g _ _ hfg rfl
  have e2 : pom_add_or_modify_tag d1 ("" ++ "artifactId") a (some 2) = d1 :=
    upsert_id_of_text d1 _ a _ _ hfa rfl
  have e3 : pom_add_or_modify_tag d1 ("" ++ "version") ver (some 3) = d1 :=
    upsert_id_of_text d1 _ ver _ _ hfv rfl
  simp only [merge_into] at h
  split at h
  · cases h
  · rename_i p4 hp4
    split at h
    · cases h
    · rename_i p5 hp5
      cases h
      have hrt : pom_children_match ("") spark_repo_values ["url"]
          (collChildren d1 ("" ++ "repositories")) = .ok true :=
        pom_add_element_post p4 d1 ("") ("repositories") ("repository")
          spark_repo_values ["url"] repo_key_order hp5 (built_repo_matches (""))
      obtain ⟨rcoll, hrf, hrtc⟩ := pcm_coll_true_find d1 ("" ++ "repositories") ("")
        spark_repo_values ["url"] hrt
      have hrskip : pom_add_element d1 ("") ("repositories") ("repository")
          spark_repo_values ["url"] repo_key_order = .ok d1 :=
        pom_add_element_skip d1 rcoll ("") ("repositories") ("repository")
          spark_repo_values ["url"] repo_key_order hrf hrtc
      have hdr : ("" : String) ++ "dependencies" ≠ "" ++ "repositories" := by decide
      cases dl with
      | none =>
        simp only [merge_into, e1, e2, e3, hrskip]
      | some ls =>
        have hfind5 : ∀ s, s ≠ ("" : String) ++ "repositories" →
            findChild d1 s = findChild p4 s :=
          (pom_add_element_spec p4 d1 ("") ("repositories") ("repository")
            spark_repo_values ["url"] repo_key_order hp5).2.2.2.1
        have hdeps : ∀ line ∈ ls, pyStartswith (pyStrip line) ("#") = false →
            ∃ dep, validate_and_return_sp_dep (pyStrip line) = .ok dep ∧
              pom_children_match ("") (dep_values dep.1 dep.2.1 dep.2.2)
                dep_comparison_keys (collChildren d1 ("" ++ "dependencies")) = .ok true := by
          intro line hl hh
          obtain ⟨dep, hval, htr⟩ := add_sp_deps_checks_true ("") ls _ p4 hp4 line hl hh
          refine ⟨dep, hval, ?_⟩
          rw [collChildren_congr p4 d1 _ (hfind5 _ hdr)]
          exact htr
        simp only [merge_into, e1, e2, e3, add_sp_deps_fixpoint ("") ls d1 hdeps, hrskip]
